import Mathlib

/-!
Verification of the EcoAgent extraction/fallback core.

A shallow embedding of the repository's extraction pipeline:

* `parse_json_from_text` — the structured-text decoder of
  `utils/helpers.py` (full parse, then fenced code block, then the
  depth-one brace scan);
* `estimate_severity_rule_based` / `estimate_severity_with_llm` — the
  severity engine of `tools/severity_estimator.py`;
* `classify_waste` — the guard/fallback logic of
  `tools/waste_classifier.py` after the model call;
* `_parse_report_sections`, `_create_fallback_report`,
  `generate_civic_report` — `tools/report_generator.py`;
* `EcoAgent.analyze_image` — the orchestration in `eco_agent.py`.

Modelling conventions:

* Strings are `List Char`; Python `str.lower`/`str.upper` are mapped
  `Char.toLower`/`Char.toUpper` (ASCII, which covers every literal the
  code compares against).
* JSON values are the mutual inductive `Json`/`JsonArr`/`JsonObj`;
  numbers are arbitrary-precision integers, plus the non-finite float
  constants `NaN`, `Infinity` and `-Infinity` that `json.loads` accepts
  and `json.dumps` re-emits under those exact spellings (`Json.nan`,
  `Json.inf`). Finite float literals remain outside the model: Python
  `float.__repr__` round-trips every finite float through `json.dumps`
  and `json.loads`, and finite floats are reflexive under Python `==`,
  so they cannot refute nor rescue any claim handled here; the
  non-finite constants, by contrast, are where Python equality breaks
  (`nan != nan`) and they are modelled explicitly.
* Python `==` on decoded values is embedded as `pyEqJson`. It follows
  `PyObject_RichCompare`: `NaN` compares unequal to everything, itself
  included; `True == 1` and `False == 0` hold across `bool`/`int`;
  containers compare element-wise (dicts order-insensitively). CPython
  containers additionally take an identity fast path
  (`PyObject_RichCompareBool`), and the `json` module hands out one
  module-level `NaN` object, so a container holding `NaN` can compare
  equal to itself in CPython; `pyEqJson` omits that fast path and is
  therefore only ever applied where the fast path cannot fire: on
  `NaN`-free values, and on the top-level `float` comparison
  `nan == nan`, which CPython resolves by `float.__eq__` alone.
* The Python `json.loads` collaborator is embedded as a strict
  recursive-descent parser (`jsonParse`); object keys repeat with
  last-occurrence-wins semantics exactly as a Python dict literal.
* The external model calls are abstracted by their extracted text
  responses (`extract_text_from_response` output), carried in a
  `CallOracle`; an explicit failure signal is a text beginning with the
  sentinel `"ERROR:"`.
* Python runtime errors (`AttributeError` from `.lower()`/`.upper()`/
  `.get` on non-strings/non-dicts, `TypeError` from unhashable keys or
  bad iteration) are modelled with `Except PyErr`; a `try/except` block
  becomes a `match` on the `Except` value.
-/

/-! ## Characters and strings -/

def lowerL (s : List Char) : List Char := s.map Char.toLower

def upperL (s : List Char) : List Char := s.map Char.toUpper

/-- `needle.isPrefixOf hay` on raw character lists (Python `startswith`). -/
def isPref : List Char → List Char → Bool
  | [], _ => true
  | _ :: _, [] => false
  | a :: as, b :: bs => a == b && isPref as bs

/-- Python `needle in hay` for strings: substring containment. -/
def containsSub (needle : List Char) : List Char → Bool
  | [] => needle.isEmpty
  | c :: rest => isPref needle (c :: rest) || containsSub needle rest

/-- Python `any(k in hay for k in keywords)`. -/
def anyContained (keywords : List (List Char)) (hay : List Char) : Bool :=
  keywords.any fun k => containsSub k hay

/-- The failure sentinel prefixed by `extract_text_from_response` on a
failed model call. -/
def errSentinel : List Char := "ERROR:".data

/-- Python `\s` for `str` / `str.strip()`: space, tab, newline, return,
form feed, vertical tab. -/
def isPySpace (c : Char) : Bool :=
  c == ' ' || c == '\t' || c == '\n' || c == '\r' || c == '\x0c' || c == '\x0b'

/-- JSON whitespace accepted by `json.loads`. -/
def isJsonWs (c : Char) : Bool :=
  c == ' ' || c == '\t' || c == '\n' || c == '\r'

def skipWs : List Char → List Char
  | [] => []
  | c :: rest => if isJsonWs c then skipWs rest else c :: rest

def skipPyWs : List Char → List Char
  | [] => []
  | c :: rest => if isPySpace c then skipPyWs rest else c :: rest

def dropWhileSpace : List Char → List Char
  | [] => []
  | c :: rest => if isPySpace c then dropWhileSpace rest else c :: rest

/-- Python `str.strip()`. -/
def stripL (s : List Char) : List Char :=
  (dropWhileSpace ((dropWhileSpace s.reverse).reverse.reverse)).reverse

/-! ## The JSON value model -/

mutual
inductive Json where
  | null : Json
  | bool (b : Bool) : Json
  | num (n : Int) : Json
  | nan : Json
  | inf (neg : Bool) : Json
  | str (s : List Char) : Json
  | arr (elems : JsonArr) : Json
  | obj (members : JsonObj) : Json
inductive JsonArr where
  | nil : JsonArr
  | cons (hd : Json) (tl : JsonArr) : JsonArr
inductive JsonObj where
  | nil : JsonObj
  | cons (k : List Char) (v : Json) (tl : JsonObj) : JsonObj
end

namespace JsonObj

/-- Keys of an object, in order. -/
def keys : JsonObj → List (List Char)
  | .nil => []
  | .cons k _ tl => k :: keys tl

/-- Membership test for a key (Python `k in d`). -/
def hasKey (k : List Char) : JsonObj → Bool
  | .nil => false
  | .cons k2 _ tl => k == k2 || hasKey k tl

/-- Python `d.get(k, default)`. -/
def getD (o : JsonObj) (k : List Char) (default : Json) : Json :=
  match o with
  | .nil => default
  | .cons k2 v tl => if k == k2 then v else getD tl k default

/-- Python dict insertion: replace in place if the key exists (the first
occurrence keeps its position), append otherwise. -/
def insert (o : JsonObj) (k : List Char) (v : Json) : JsonObj :=
  match o with
  | .nil => .cons k v .nil
  | .cons k2 v2 tl => if k == k2 then .cons k2 v tl else .cons k2 v2 (insert tl k v)

/-- Number of members. -/
def length : JsonObj → Nat
  | .nil => 0
  | .cons _ _ tl => length tl + 1

/-- Lookup of the first value stored under a key (Python `d[k]` on a
dict, whose keys never repeat). -/
def find? (k : List Char) : JsonObj → Option Json
  | .nil => none
  | .cons k2 v tl => if k == k2 then some v else find? k tl

end JsonObj

namespace JsonArr

def length : JsonArr → Nat
  | .nil => 0
  | .cons _ tl => length tl + 1

/-- Python `x in xs` element test, restricted to the equality cases the
code exercises (a string element equal to the probe string). -/
def memStr (s : List Char) : JsonArr → Bool
  | .nil => false
  | .cons (.str s2) tl => s == s2 || memStr s tl
  | .cons _ tl => memStr s tl

end JsonArr

/-! ## Serialization (the spec's `json.stringify`): a compact standard
JSON rendering, escaping the two characters that must be escaped. -/

/-- Decimal digits of a natural number (fuel-driven so that it reduces
in the kernel). -/
def natDigitsF : Nat → Nat → List Char
  | 0, _ => []
  | f + 1, n =>
    if n < 10 then [Char.ofNat (n + 48)]
    else natDigitsF f (n / 10) ++ [Char.ofNat (n % 10 + 48)]

def natDigits (n : Nat) : List Char := natDigitsF (n + 1) n

def renderInt (n : Int) : List Char :=
  if n < 0 then '-' :: natDigits n.natAbs else natDigits n.natAbs

/-- Escape one string character for a JSON string literal. -/
def escChar (c : Char) : List Char :=
  if c == '"' then ['\\', '"']
  else if c == '\\' then ['\\', '\\']
  else [c]

def escapeStr : List Char → List Char
  | [] => []
  | c :: rest => escChar c ++ escapeStr rest

mutual
def Json.render : Json → List Char
  | .null => "null".data
  | .bool true => "true".data
  | .bool false => "false".data
  | .num n => renderInt n
  | .nan => "NaN".data
  | .inf false => "Infinity".data
  | .inf true => "-Infinity".data
  | .str s => '"' :: escapeStr s ++ ['"']
  | .arr xs => '[' :: JsonArr.render xs
  | .obj ms => '{' :: JsonObj.render ms
def JsonArr.render : JsonArr → List Char
  | .nil => [']']
  | .cons x .nil => x.render ++ [']']
  | .cons x (.cons y tl) => x.render ++ ',' :: JsonArr.render (.cons y tl)
def JsonObj.render : JsonObj → List Char
  | .nil => ['\x7d']
  | .cons k v .nil => '"' :: escapeStr k ++ '"' :: ':' :: v.render ++ ['\x7d']
  | .cons k v (.cons k2 v2 tl) =>
      '"' :: escapeStr k ++ '"' :: ':' :: v.render ++ ',' :: JsonObj.render (.cons k2 v2 tl)
end

/-! ## The `json.loads` collaborator: a strict JSON parser -/

def isDigitCh (c : Char) : Bool := 48 ≤ c.toNat && c.toNat ≤ 57

def digitVal (c : Char) : Nat := c.toNat - 48

/-- Parse a maximal run of decimal digits, accumulating their value. -/
def parseDigits (acc : Nat) : List Char → Nat × List Char
  | [] => (acc, [])
  | c :: rest =>
    if isDigitCh c then parseDigits (acc * 10 + digitVal c) rest
    else (acc, c :: rest)

/-- A character that would extend a numeric literal into a float
(floats are outside the model; `json.loads` would build a `float`). -/
def isFloatCont (l : List Char) : Bool :=
  match l with
  | [] => false
  | c :: _ => c == '.' || c == 'e' || c == 'E'

/-- Parse an unsigned strict-JSON integer: `0` alone or a nonzero
leading digit followed by digits; reject a following `.`/`e`/`E`. -/
def parseUnsigned : List Char → Option (Nat × List Char)
  | [] => none
  | c :: rest =>
    if c == '0' then
      if isFloatCont rest then none else some (0, rest)
    else if isDigitCh c then
      let (n, r) := parseDigits (digitVal c) rest
      if isFloatCont r then none else some (n, r)
    else none

def parseNum : List Char → Option (Int × List Char)
  | [] => none
  | c :: rest =>
    if c == '-' then
      match parseUnsigned rest with
      | some (n, r) => some (-(n : Int), r)
      | none => none
    else
      match parseUnsigned (c :: rest) with
      | some (n, r) => some ((n : Int), r)
      | none => none

def hexVal (c : Char) : Option Nat :=
  if isDigitCh c then some (digitVal c)
  else if 'a' ≤ c && c ≤ 'f' then some (c.toNat - 87)
  else if 'A' ≤ c && c ≤ 'F' then some (c.toNat - 55)
  else none

/-- The character named by a single-character escape, if any. -/
def escCharOf (e : Char) : Option Char :=
  if e == '"' then some '"'
  else if e == '\\' then some '\\'
  else if e == '/' then some '/'
  else if e == 'n' then some '\n'
  else if e == 't' then some '\t'
  else if e == 'r' then some '\r'
  else if e == 'b' then some '\x08'
  else if e == 'f' then some '\x0c'
  else none

/-- Parse the body of a JSON string literal after the opening quote.
Recognises the standard single-character escapes and `\uXXXX`; any
other character is taken literally. -/
def parseStr : List Char → Option (List Char × List Char)
  | [] => none
  | c :: rest =>
    if c == '"' then some ([], rest)
    else if c == '\\' then
      match rest with
      | [] => none
      | e :: rest2 =>
        if e == 'u' then
          match rest2 with
          | h1 :: h2 :: h3 :: h4 :: rest3 =>
            match hexVal h1, hexVal h2, hexVal h3, hexVal h4 with
            | some a, some b, some c2, some d =>
              match parseStr rest3 with
              | some (s, r) =>
                some (Char.ofNat (((a * 16 + b) * 16 + c2) * 16 + d) :: s, r)
              | none => none
            | _, _, _, _ => none
          | _ => none
        else
          match escCharOf e with
          | some c2 =>
            match parseStr rest2 with
            | some (s, r) => some (c2 :: s, r)
            | none => none
          | none => none
    else
      match parseStr rest with
      | some (s, r) => some (c :: s, r)
      | none => none

/-- Normalise raw parsed members into a Python dict: fold the pairs in
document order with replace-or-append insertion. -/
def normMembersFrom (acc : JsonObj) : JsonObj → JsonObj
  | .nil => acc
  | .cons k v tl => normMembersFrom (acc.insert k v) tl

def normMembers (ms : JsonObj) : JsonObj := normMembersFrom .nil ms

mutual
/-- Parse one JSON value (after any leading whitespace). The fuel only
needs to exceed the value's node count. -/
def parseValue : Nat → List Char → Option (Json × List Char)
  | 0, _ => none
  | f + 1, cs =>
    match skipWs cs with
    | [] => none
    | c :: rest =>
      if c == 'n' then
        if isPref "ull".data rest then some (.null, rest.drop 3) else none
      else if c == 't' then
        if isPref "rue".data rest then some (.bool true, rest.drop 3) else none
      else if c == 'f' then
        if isPref "alse".data rest then some (.bool false, rest.drop 4) else none
      else if c == '"' then
        match parseStr rest with
        | some (s, r) => some (.str s, r)
        | none => none
      else if c == '[' then
        match skipWs rest with
        | [] => none
        | c2 :: r =>
          if c2 == ']' then some (.arr .nil, r)
          else
            match parseElems f (c2 :: r) with
            | some (xs, r2) => some (.arr xs, r2)
            | none => none
      else if c == '{' then
        match skipWs rest with
        | [] => none
        | c2 :: r =>
          if c2 == '\x7d' then some (.obj .nil, r)
          else
            match parseMembers f (c2 :: r) with
            | some (ms, r2) => some (.obj (normMembers ms), r2)
            | none => none
      else if c == 'N' then
        if isPref "aN".data rest then some (.nan, rest.drop 2) else none
      else if c == 'I' then
        if isPref "nfinity".data rest then some (.inf false, rest.drop 7) else none
      else if c == '-' && isPref "Infinity".data rest then
        some (.inf true, rest.drop 8)
      else
        match parseNum (c :: rest) with
        | some (n, r) => some (.num n, r)
        | none => none

/-- Parse a non-empty comma-separated element list followed by `]`. -/
def parseElems : Nat → List Char → Option (JsonArr × List Char)
  | 0, _ => none
  | f + 1, cs =>
    match parseValue f cs with
    | some (v, r) =>
      match skipWs r with
      | [] => none
      | c :: r2 =>
        if c == ',' then
          match parseElems f r2 with
          | some (xs, r3) => some (.cons v xs, r3)
          | none => none
        else if c == ']' then some (.cons v .nil, r2)
        else none
    | none => none

/-- Parse a non-empty `"key": value` member list followed by `}`. -/
def parseMembers : Nat → List Char → Option (JsonObj × List Char)
  | 0, _ => none
  | f + 1, cs =>
    match skipWs cs with
    | [] => none
    | q :: rest =>
      if q == '"' then
        match parseStr rest with
        | some (k, r) =>
          match skipWs r with
          | [] => none
          | col :: r2 =>
            if col == ':' then
              match parseValue f r2 with
              | some (v, r3) =>
                match skipWs r3 with
                | [] => none
                | c :: r4 =>
                  if c == ',' then
                    match parseMembers f r4 with
                    | some (ms, r5) => some (.cons k v ms, r5)
                    | none => none
                  else if c == '\x7d' then some (.cons k v .nil, r4)
                  else none
              | none => none
            else none
        | none => none
      else none
end

/-- `json.loads`: parse one JSON document, allowing only surrounding
whitespace (anything else raises, i.e. yields `none`). -/
def jsonParse (cs : List Char) : Option Json :=
  match parseValue (cs.length + 1) cs with
  | some (v, r) => if skipWs r = [] then some v else none
  | none => none

/-! ## `parse_json_from_text` (utils/helpers.py, lines 205-243)

Strategy 1 is `jsonParse` on the whole text.  Strategy 2 embeds the
first match of the fenced-block pattern
three backticks, optional `json`, whitespace, a lazily captured
brace-delimited block, whitespace, three backticks.  Strategy 3 embeds
the depth-one brace pattern, collecting the non-overlapping matches in
order and returning the first that parses. -/

/-- After the lazily growing capture has consumed `acc.reverse`, try to
close the fenced block at each successive closing brace: the capture
ends at the first brace whose remainder is whitespace then a fence. -/
def fenceBody : List Char → List Char → Option (List Char)
  | _, [] => none
  | acc, c :: r =>
    if c == '\x7d' then
      if isPref "```".data (skipPyWs r) then some ('\x7b' :: acc.reverse ++ ['\x7d'])
      else fenceBody (c :: acc) r
    else fenceBody (c :: acc) r

/-- Try the fence pattern anchored at this position. -/
def tryFenceAt (s : List Char) : Option (List Char) :=
  if isPref "```".data s then
    let s1 := s.drop 3
    let s2 := if isPref "json".data s1 then s1.drop 4 else s1
    match skipPyWs s2 with
    | '\x7b' :: r => fenceBody [] r
    | _ => none
  else none

/-- First fenced-block capture anywhere in the text (`re.findall` is
leftmost-first and only `matches[0]` is consulted). -/
def findFence : List Char → Option (List Char)
  | [] => none
  | c :: rest =>
    match tryFenceAt (c :: rest) with
    | some cand => some cand
    | none => findFence rest

/-- Split at the first brace character. -/
def spanNonBrace : List Char → List Char × List Char
  | [] => ([], [])
  | c :: rest =>
    if c == '\x7b' || c == '\x7d' then ([], c :: rest)
    else
      let (a, b) := spanNonBrace rest
      (c :: a, b)

/-- Match the tail of `\x7b[^\x7b\x7d]*(\x7b[^\x7b\x7d]*\x7d[^\x7b\x7d]*)*\x7d`
after its opening brace: repeatedly take non-brace text and at most one
level of nested braces; fail on depth two or a missing close. -/
def d1Go : Nat → List Char → List Char → Option (List Char × List Char)
  | 0, _, _ => none
  | f + 1, acc, l =>
    let (nb, r) := spanNonBrace l
    match r with
    | '\x7d' :: r2 => some (acc ++ nb ++ ['\x7d'], r2)
    | '\x7b' :: r2 =>
      let (nb2, r3) := spanNonBrace r2
      match r3 with
      | '\x7d' :: r4 => d1Go f (acc ++ nb ++ '\x7b' :: nb2 ++ ['\x7d']) r4
      | _ => none
    | _ => none

/-- All non-overlapping depth-one brace matches, left to right. -/
def braceScan : Nat → List Char → List (List Char)
  | 0, _ => []
  | _ + 1, [] => []
  | f + 1, c :: rest =>
    if c == '\x7b' then
      match d1Go (rest.length + 1) [] rest with
      | some (body, r2) => ('\x7b' :: body) :: braceScan f r2
      | none => braceScan f rest
    else braceScan f rest

/-- First candidate that `json.loads` accepts. -/
def firstParse : List (List Char) → Option Json
  | [] => none
  | c :: rest =>
    match jsonParse c with
    | some v => some v
    | none => firstParse rest

/-- `parse_json_from_text` (utils/helpers.py): direct parse, then the
first fenced block, then every depth-one brace candidate in order. -/
def parse_json_from_text (text : List Char) : Option Json :=
  match jsonParse text with
  | some v => some v
  | none =>
    match findFence text with
    | some cand =>
      match jsonParse cand with
      | some v => some v
      | none => firstParse (braceScan (text.length + 1) text)
    | none => firstParse (braceScan (text.length + 1) text)

/-! ## Python dynamic-typing helpers

The decoded values flow through Python code that calls `str` methods
and dict operations on them; when the value has the wrong type the
interpreter raises, which the `try/except` blocks convert into the
fallbacks.  `PyErr` names the two error classes those paths raise. -/

inductive PyErr where
  | attributeError : PyErr
  | typeError : PyErr
  | valueError : PyErr
deriving DecidableEq

/-- Python truthiness of a JSON-shaped value. -/
def pyTruthy : Json → Bool
  | .null => false
  | .bool b => b
  | .num n => n != 0
  | .nan => true
  | .inf _ => true
  | .str s => !s.isEmpty
  | .arr .nil => false
  | .arr (.cons _ _) => true
  | .obj .nil => false
  | .obj (.cons _ _ _) => true

/-- Python `k in x` for a string probe: key membership for a dict,
element equality for a list, substring for a string, `TypeError`
otherwise. -/
def pyIn (k : List Char) : Json → Except PyErr Bool
  | .obj ms => .ok (ms.hasKey k)
  | .arr xs => .ok (xs.memStr k)
  | .str s => .ok (containsSub k s)
  | _ => .error .typeError

/-- Python `x.get(k, default)`: only dicts have `.get`. -/
def pyGetD (x : Json) (k : List Char) (default : Json) : Except PyErr Json :=
  match x with
  | .obj ms => .ok (ms.getD k default)
  | _ => .error .attributeError

/-- Python `x.lower()`: only strings have `.lower`. -/
def pyLower : Json → Except PyErr (List Char)
  | .str s => .ok (lowerL s)
  | _ => .error .attributeError

/-- Python `x.upper()`. -/
def pyUpper : Json → Except PyErr (List Char)
  | .str s => .ok (upperL s)
  | _ => .error .attributeError

/-- `str(x)` as used inside f-strings.  Strings interpolate verbatim;
numbers, booleans and `None` use Python spellings; containers are
approximated by their JSON rendering (no claim inspects such text). -/
def pyStr : Json → List Char
  | .str s => s
  | .num n => renderInt n
  | .nan => "nan".data
  | .inf false => "inf".data
  | .inf true => "-inf".data
  | .bool true => "True".data
  | .bool false => "False".data
  | .null => "None".data
  | .arr xs => (Json.arr xs).render
  | .obj ms => (Json.obj ms).render

/-- `[tag.lower() for tag in x]`: iterating a non-iterable raises
`TypeError`; `.lower()` on a non-string element raises
`AttributeError`; iterating a string lowers its characters and
iterating a dict lowers its keys (all unused downstream). -/
def pyLowerTags : Json → Except PyErr Unit
  | .arr xs =>
    let rec ck : JsonArr → Except PyErr Unit
      | .nil => .ok ()
      | .cons (.str _) tl => ck tl
      | .cons _ _ => .error .attributeError
    ck xs
  | .str _ => .ok ()
  | .obj _ => .ok ()
  | _ => .error .typeError

/-! ## Severity estimator (ecoagent/tools/severity_estimator.py) -/

structure LevelInfo where
  level : Int
  description : List Char
  response_time : List Char
deriving DecidableEq

/-- The `SEVERITY_LEVELS` table (severity_estimator.py, lines 12-38). -/
def SEVERITY_LEVELS : List (List Char × LevelInfo) :=
  [ ("critical".data,
      ⟨5, "Immediate threat to public health or environment".data,
          "Immediate (within 24 hours)".data⟩),
    ("high".data,
      ⟨4, "Significant environmental or health concern".data,
          "Urgent (within 3 days)".data⟩),
    ("medium".data,
      ⟨3, "Moderate concern requiring attention".data,
          "Standard (within 1 week)".data⟩),
    ("low".data,
      ⟨2, "Minor issue, routine cleanup needed".data,
          "Regular schedule (within 2 weeks)".data⟩),
    ("minimal".data,
      ⟨1, "Minimal impact, preventive action suggested".data,
          "As resources permit".data⟩) ]

def levelLookup (name : List Char) : Option LevelInfo :=
  (SEVERITY_LEVELS.find? fun p => p.1 == name).map Prod.snd

/-- `SEVERITY_LEVELS[severity_level]` with a key produced by the score
chain (always one of the five names, so the default is unreachable). -/
def levelIndex (name : List Char) : LevelInfo :=
  (levelLookup name).getD ⟨3, "Moderate concern requiring attention".data,
    "Standard (within 1 week)".data⟩

/-- `SEVERITY_LEVELS.get(severity_level, SEVERITY_LEVELS["medium"])`
with an arbitrary decoded key: unhashable keys (lists, dicts) raise
`TypeError`; any other non-matching key falls back to medium. -/
def pyLevelsGet (key : Json) : Except PyErr LevelInfo :=
  match key with
  | .arr _ => .error .typeError
  | .obj _ => .error .typeError
  | .str s => .ok (levelIndex s)
  | _ => .ok (levelIndex "medium".data)

/-- A classification record as produced by `classify_waste`: every key
of the result dict, with decoded JSON values stored untouched. -/
structure Classification where
  waste_type : Json
  confidence : Json
  description : Json
  tags : Json
  visible_items : Json
  raw_response : List Char
  error : Bool

/-- A severity assessment dict.  The optional fields are keys that only
the LLM path writes; `severity_score` and `severity` carry whatever
JSON value the model supplied. -/
structure SeverityResult where
  severity : Json
  severity_score : Json
  description : List Char
  response_time : List Char
  method : List Char
  reasoning : Option Json := none
  health_risk : Option Json := none
  environmental_impact : Option Json := none
  urgency_factors : Option Json := none
  llm_error : Option PyErr := none

def critical_keywords : List (List Char) :=
  ["hazardous".data, "chemical".data, "toxic".data, "oil spill".data,
   "sewage".data, "battery".data, "medical".data]

def high_keywords : List (List Char) :=
  ["e-waste".data, "electronic".data, "metal".data, "large amount".data,
   "widespread".data, "river".data, "water body".data]

def low_keywords : List (List Char) :=
  ["minimal".data, "small".data, "single item".data, "paper".data,
   "cardboard".data]

/-- The keyword cascade of `estimate_severity_rule_based` (lines 57-80):
baseline 3, then the critical / high / low checks in order, waste type
before description at each tier. -/
def keywordScore (waste_type description : List Char) : Int :=
  if anyContained critical_keywords waste_type then 5
  else if anyContained critical_keywords description then 5
  else if containsSub "hazardous".data waste_type
          || anyContained high_keywords waste_type then 4
  else if anyContained high_keywords description then 4
  else if anyContained low_keywords waste_type then 2
  else if anyContained low_keywords description then 2
  else 3

/-- The score-to-level chain of lines 87-95. -/
def levelOfScore (s : Int) : List Char :=
  if s ≥ 5 then "critical".data
  else if s ≥ 4 then "high".data
  else if s = 2 then "low".data
  else if s = 1 then "minimal".data
  else "medium".data

/-- `estimate_severity_rule_based` (severity_estimator.py, lines
41-105).  The `.lower()` calls raise on non-string fields, which is why
the result is an `Except`. -/
def estimate_severity_rule_based (c : Classification) : Except PyErr SeverityResult := do
  let waste_type ← pyLower c.waste_type
  let confidence ← pyLower c.confidence
  let description ← pyLower c.description
  let _ ← pyLowerTags c.tags
  let severity_score := keywordScore waste_type description
  let severity_score :=
    if confidence = "low".data then max 2 (severity_score - 1) else severity_score
  let severity_level := levelOfScore severity_score
  let severity_info := levelIndex severity_level
  pure { severity := .str severity_level,
         severity_score := .num severity_score,
         description := severity_info.description,
         response_time := severity_info.response_time,
         method := "rule-based".data }

/-- The body of the `try` block of `estimate_severity_with_llm`
(lines 124-186), taking the extracted response text of the severity
collaborator as input. -/
def severityLlmBody (c : Classification) (text : List Char) :
    Except PyErr SeverityResult := do
  if isPref errSentinel text then
    estimate_severity_rule_based c
  else
    match parse_json_from_text text with
    | none => estimate_severity_rule_based c
    | some parsed_json =>
      let cond ← (do
        if pyTruthy parsed_json then pyIn "severity".data parsed_json
        else pure false)
      if cond then do
        let severity_level ← pyGetD parsed_json "severity".data (.str "medium".data)
        let severity_info ← pyLevelsGet severity_level
        let severity_score ← pyGetD parsed_json "severity_score".data (.num severity_info.level)
        let reasoning ← pyGetD parsed_json "reasoning".data (.str [])
        let health_risk ← pyGetD parsed_json "health_risk".data (.str "Assessment pending".data)
        let environmental_impact ←
          pyGetD parsed_json "environmental_impact".data (.str "Assessment pending".data)
        let urgency_factors ← pyGetD parsed_json "urgency_factors".data (.arr .nil)
        pure { severity := severity_level,
               severity_score := severity_score,
               description := severity_info.description,
               response_time := severity_info.response_time,
               reasoning := some reasoning,
               health_risk := some health_risk,
               environmental_impact := some environmental_impact,
               urgency_factors := some urgency_factors,
               method := "llm-based".data }
      else
        estimate_severity_rule_based c

/-- `estimate_severity_with_llm` (lines 108-192): the `try` body above,
with the `except` handler re-running the rule engine and annotating its
result with `llm_error` (a handler failure propagates). -/
def estimate_severity_with_llm (c : Classification) (text : List Char) :
    Except PyErr SeverityResult :=
  match severityLlmBody c text with
  | .ok r => .ok r
  | .error e =>
    match estimate_severity_rule_based c with
    | .ok r => .ok { r with llm_error := some e }
    | .error e2 => .error e2

/-- `estimate_severity` (lines 195-214); the location argument only
feeds the prompt, which the oracle text already reflects. -/
def estimate_severity (c : Classification) (text : List Char) (use_llm : Bool) :
    Except PyErr SeverityResult :=
  if use_llm then estimate_severity_with_llm c text
  else estimate_severity_rule_based c

/-! ## Waste classifier (tools/waste_classifier.py) -/

/-- An approximate `str(e)` for an exception (only its class matters to
any claim; the text lands in `raw_response` / error strings). -/
def errText : PyErr → List Char
  | .attributeError => "AttributeError".data
  | .typeError => "TypeError".data
  | .valueError => "ValueError".data

/-- `_create_fallback_classification` (waste_classifier.py, lines
105-123). -/
def _create_fallback_classification (error_msg : List Char) : Classification :=
  { waste_type := .str "Unknown - Classification Failed".data,
    confidence := .str "low".data,
    description := .str ("Unable to classify waste due to an error. " ++
      "Please try again or provide a clearer image.").data,
    tags := .arr (.cons (.str "error".data) (.cons (.str "unclassified".data) .nil)),
    visible_items := .arr .nil,
    raw_response := error_msg,
    error := true }

/-- The no-required-fields fallback of lines 91-99: keep the raw model
text as the description. -/
def classifyTextFallback (text : List Char) : Classification :=
  { waste_type := .str "General litter/mixed waste".data,
    confidence := .str "low".data,
    description := .str text,
    tags := .arr .nil,
    visible_items := .arr .nil,
    raw_response := text,
    error := false }

/-- The `try` body of `classify_waste` (lines 60-99) on the extracted
response text. -/
def classifyBody (text : List Char) : Except PyErr Classification := do
  if isPref errSentinel text then
    pure (_create_fallback_classification text)
  else
    match parse_json_from_text text with
    | none => pure (classifyTextFallback text)
    | some parsed_json =>
      let cond ← (do
        if pyTruthy parsed_json then do
          let b1 ← pyIn "waste_type".data parsed_json
          if b1 then do
            let b2 ← pyIn "confidence".data parsed_json
            if b2 then pyIn "description".data parsed_json else pure false
          else pure false
        else pure false)
      if cond then do
        let waste_type ← pyGetD parsed_json "waste_type".data (.str "Unknown".data)
        let confidence ← pyGetD parsed_json "confidence".data (.str "low".data)
        let description ← pyGetD parsed_json "description".data (.str [])
        let tags ← pyGetD parsed_json "tags".data (.arr .nil)
        let visible_items ← pyGetD parsed_json "visible_items".data (.arr .nil)
        pure { waste_type := waste_type, confidence := confidence,
               description := description, tags := tags,
               visible_items := visible_items, raw_response := text, error := false }
      else
        pure (classifyTextFallback text)

/-- `classify_waste` (lines 28-102): the body above with the `except`
handler that builds the error fallback.  Total: a stage-1 failure never
escapes. -/
def classify_waste (text : List Char) : Classification :=
  match classifyBody text with
  | .ok c => c
  | .error e =>
    _create_fallback_classification
      ("Exception during classification: ".data ++ errText e)

/-! ## Report generator (tools/report_generator.py) -/

structure ReportSections where
  executive_summary : List Char := []
  detailed_findings : List Char := []
  risk_assessment : List Char := []
  recommended_actions : List Char := []
  priority_level : List Char := []

structure ReportMetadata where
  classification_confidence : Json
  severity_score : Json
  response_time : List Char
  is_fallback : Bool := false
  error : Option (List Char) := none

structure Report where
  report_id : List Char
  timestamp : List Char
  location : List Char
  waste_type : Json
  severity : Json
  full_report : List Char
  sections : ReportSections
  metadata : ReportMetadata

/-- Case-insensitive literal prefix test; the pattern is stored in
lower case. -/
def isPrefIC : List Char → List Char → Bool
  | [], _ => true
  | _ :: _, [] => false
  | a :: as, b :: bs => a == b.toLower && isPrefIC as bs

/-- The lookahead `#{1,2}\s`: one or two hashes then a whitespace
character. -/
def hashBoundary : List Char → Bool
  | '#' :: c :: rest =>
    isPySpace c || (c == '#' && (match rest with
      | c2 :: _ => isPySpace c2
      | [] => false))
  | _ => false

/-- Boundary lookahead of the summary/priority patterns:
blank line, bold marker, heading hashes, or end of text. -/
def bndLoose (l : List Char) : Bool :=
  isPref "\n\n".data l || isPref "**".data l || hashBoundary l || l.isEmpty

/-- Boundary lookahead of the findings/risk/actions patterns:
blank line followed by a bold marker, heading hashes, or end. -/
def bndTight (l : List Char) : Bool :=
  isPref "\n\n**".data l || hashBoundary l || l.isEmpty

/-- The greedy `[:\s]+` separator run after a heading. -/
def spanSepRun : List Char → Nat × List Char
  | [] => (0, [])
  | c :: rest =>
    if c == ':' || isPySpace c then
      let (n, r) := spanSepRun rest
      (n + 1, r)
    else (0, c :: rest)

/-- The lazy `(.*?)(?=boundary)` capture: everything up to the first
position where the boundary lookahead holds (end of text included). -/
def captureUntil (bnd : List Char → Bool) : List Char → List Char
  | [] => []
  | c :: rest => if bnd (c :: rest) then [] else c :: captureUntil bnd rest

/-- Try each heading alternative at this position, in pattern order;
an alternative succeeds when the separator run is non-empty. -/
def tryHeadingsAt (bnd : List Char → Bool) :
    List (List Char) → List Char → Option (List Char)
  | [], _ => none
  | h :: hs, s =>
    if isPrefIC h s then
      let (n, r) := spanSepRun (s.drop h.length)
      if n = 0 then tryHeadingsAt bnd hs s
      else some (captureUntil bnd r)
    else tryHeadingsAt bnd hs s

/-- `re.search`: leftmost position at which some alternative matches. -/
def findSection (bnd : List Char → Bool) (hs : List (List Char)) :
    List Char → Option (List Char)
  | [] => none
  | c :: rest =>
    match tryHeadingsAt bnd hs (c :: rest) with
    | some cap => some cap
    | none => findSection bnd hs rest

/-- One field of the section dict: the stripped capture, or empty when
the pattern does not match. -/
def getSection (hs : List (List Char)) (bnd : List Char → Bool)
    (text : List Char) : List Char :=
  match findSection bnd hs text with
  | some cap => stripL cap
  | none => []

def execHeadings : List (List Char) := ["executive summary".data, "summary".data]
def findingsHeadings : List (List Char) :=
  ["detailed findings".data, "findings".data, "observations".data]
def riskHeadings : List (List Char) :=
  ["risk assessment".data, "risks".data, "risk".data]
def actionsHeadings : List (List Char) :=
  ["recommended actions".data, "recommended action".data, "actions".data,
   "action".data, "recommendations".data, "recommendation".data]
def priorityHeadings : List (List Char) := ["priority level".data, "priority".data]

/-- The per-field independent matches of `_parse_report_sections`
(report_generator.py, lines 128-151), before the all-empty fallback. -/
def reportSectionsRaw (report_text : List Char) : ReportSections :=
  { executive_summary := getSection execHeadings bndLoose report_text,
    detailed_findings := getSection findingsHeadings bndTight report_text,
    risk_assessment := getSection riskHeadings bndTight report_text,
    recommended_actions := getSection actionsHeadings bndTight report_text,
    priority_level := getSection priorityHeadings bndLoose report_text }

def allSectionsEmpty (s : ReportSections) : Bool :=
  s.executive_summary.isEmpty && s.detailed_findings.isEmpty &&
  s.risk_assessment.isEmpty && s.recommended_actions.isEmpty &&
  s.priority_level.isEmpty

/-- `_parse_report_sections` (lines 118-157): total, and when every
field match is empty the whole narrative goes verbatim into
`executive_summary`. -/
def _parse_report_sections (report_text : List Char) : ReportSections :=
  let sections := reportSectionsRaw report_text
  if allSectionsEmpty sections then
    { executive_summary := report_text }
  else sections

/-- `', '.join(x)`: needs an iterable of strings (a dict iterates its
keys, a string its characters); anything else raises `TypeError`. -/
def pyJoinComma : Json → Except PyErr (List Char)
  | .arr xs =>
    let rec go : JsonArr → Except PyErr (List Char)
      | .nil => .ok []
      | .cons (.str s) .nil => .ok s
      | .cons (.str s) (.cons y tl) => do
        let r ← go (.cons y tl)
        pure (s ++ ", ".data ++ r)
      | .cons _ _ => .error .typeError
    go xs
  | .str s =>
    let rec goChars : List Char → List Char
      | [] => []
      | [c] => [c]
      | c :: c2 :: tl => c :: ", ".data ++ goChars (c2 :: tl)
    .ok (goChars s)
  | .obj ms =>
    let rec goKeys : JsonObj → List Char
      | .nil => []
      | .cons k _ .nil => k
      | .cons k _ (.cons k2 v2 tl) => k ++ ", ".data ++ goKeys (.cons k2 v2 tl)
    .ok (goKeys ms)
  | _ => .error .typeError

/-- `{location if location else 'unspecified location'}`. -/
def locOr (location : List Char) : List Char :=
  if location.isEmpty then "unspecified location".data else location

/-- The auto-generated template text of `_create_fallback_report`
(lines 185-208). -/
def fallbackText (waste_type location severity_level description confidence
    sevUp score response_time : List Char) : List Char :=
  "ENVIRONMENTAL INCIDENT REPORT (Auto-Generated)\n\nExecutive Summary:\n".data ++
  waste_type ++ " detected at ".data ++ locOr location ++ " with ".data ++
  severity_level ++ " severity level.\n\nDetailed Findings:\n- Waste Type: ".data ++
  waste_type ++ "\n- Description: ".data ++ description ++
  "\n- Confidence Level: ".data ++ confidence ++
  "\n\nRisk Assessment:\n- Severity Level: ".data ++ sevUp ++
  "\n- Severity Score: ".data ++ score ++
  "/5\n- Response Time Required: ".data ++ response_time ++
  "\n\nRecommended Actions:\n- Dispatch appropriate cleanup crew\n".data ++
  "- Assess the extent of contamination\n".data ++
  "- Implement containment measures if necessary\n- Follow standard protocols for ".data ++
  waste_type ++ "\n\nPriority Level: ".data ++ sevUp ++
  "\n\nNote: This is an auto-generated report. Manual review recommended.".data

/-- `_create_fallback_report` (lines 160-231).  Building the template
evaluates `severity_level.upper()`, which raises when the severity
level the LLM path stored is not a string — so even the fallback can
fail. -/
def _create_fallback_report (classification : Classification)
    (severity : SeverityResult) (location error_msg now_compact now_stamp : List Char) :
    Except PyErr Report := do
  let waste_type := classification.waste_type
  let severity_level := severity.severity
  let description := classification.description
  let sevUp ← pyUpper severity_level
  let full := fallbackText (pyStr waste_type) location (pyStr severity_level)
    (pyStr description) (pyStr classification.confidence) sevUp
    (pyStr severity.severity_score) severity.response_time
  pure { report_id := "ECO-".data ++ now_compact,
         timestamp := now_stamp,
         location := location,
         waste_type := waste_type,
         severity := severity_level,
         full_report := full,
         sections := { executive_summary :=
                         pyStr waste_type ++ " detected with ".data ++
                         pyStr severity_level ++ " severity".data,
                       detailed_findings := pyStr description,
                       risk_assessment := sevUp ++ " priority".data,
                       recommended_actions :=
                         "Standard cleanup and assessment required".data,
                       priority_level := sevUp },
         metadata := { classification_confidence := classification.confidence,
                       severity_score := severity.severity_score,
                       response_time := severity.response_time,
                       is_fallback := true,
                       error := some error_msg } }

/-- The `try` body of `generate_civic_report` (lines 30-107): the
context block joins `visible_items` (which can raise), then either the
fallback on a failure signal or the parsed success report. -/
def generateBody (classification : Classification) (severity : SeverityResult)
    (location additional_notes report_text now_compact now_stamp : List Char) :
    Except PyErr Report := do
  let _ ← pyJoinComma classification.visible_items
  if isPref errSentinel report_text then
    _create_fallback_report classification severity location report_text
      now_compact now_stamp
  else
    pure { report_id := "ECO-".data ++ now_compact,
           timestamp := now_stamp,
           location := location,
           waste_type := classification.waste_type,
           severity := severity.severity,
           full_report := report_text,
           sections := _parse_report_sections report_text,
           metadata := { classification_confidence := classification.confidence,
                         severity_score := severity.severity_score,
                         response_time := severity.response_time } }

/-- `generate_civic_report` (lines 11-115): the body with its `except`
handler, which retries the fallback with the exception text (and
propagates when the fallback itself raises again). -/
def generate_civic_report (classification : Classification)
    (severity : SeverityResult)
    (location additional_notes report_text now_compact now_stamp : List Char) :
    Except PyErr Report :=
  match generateBody classification severity location additional_notes
      report_text now_compact now_stamp with
  | .ok r => .ok r
  | .error e =>
    _create_fallback_report classification severity location
      ("Exception during report generation: ".data ++ errText e)
      now_compact now_stamp

/-! ## The pipeline (eco_agent.py, `EcoAgent.analyze_image`) -/

/-- The collaborators and the clock, abstracted as inputs: the image
encoder may raise; each model call is represented by the text that
`extract_text_from_response` yields for it. -/
structure CallOracle where
  encode_image : Except PyErr (List Char)
  classify_text : List Char
  severity_text : List Char
  report_text : List Char
  now_compact : List Char
  now_stamp : List Char

structure PipelineSteps where
  encoding_ok : Bool := false
  classification : Option Classification := none
  severity : Option SeverityResult := none
  report : Option Report := none

structure RunSummary where
  report_id : List Char
  waste_type : Json
  severity : Json
  location : List Char

structure AnalysisRecord where
  status : List Char
  steps : PipelineSteps := {}
  summary : Option RunSummary := none
  error : Option PyErr := none

/-- `EcoAgent.analyze_image` (eco_agent.py, lines 43-149), with
`verbose=False`: the `try` block runs encode, classify, severity and
report in order, recording each step; any escaping exception yields
`status="error"` with the steps recorded so far. -/
def analyze_image (o : CallOracle) (location additional_notes : List Char)
    (use_llm_severity : Bool) : AnalysisRecord :=
  match o.encode_image with
  | .error e => { status := "error".data, error := some e }
  | .ok _ =>
    let classification := classify_waste o.classify_text
    match estimate_severity classification o.severity_text use_llm_severity with
    | .error e =>
      { status := "error".data,
        steps := { encoding_ok := true, classification := some classification },
        error := some e }
    | .ok severity =>
      match generate_civic_report classification severity location
          additional_notes o.report_text o.now_compact o.now_stamp with
      | .error e =>
        { status := "error".data,
          steps := { encoding_ok := true, classification := some classification,
                     severity := some severity },
          error := some e }
      | .ok report =>
        { status := "complete".data,
          steps := { encoding_ok := true, classification := some classification,
                     severity := some severity, report := some report },
          summary := some { report_id := report.report_id,
                            waste_type := classification.waste_type,
                            severity := severity.severity,
                            location := location } }

/-! ## Helper lemmas -/

theorem exc_bind_ok {α β ε : Type} (a : α) (f : α → Except ε β) :
    (Except.ok a >>= f) = f a := rfl

theorem exc_bind_err {α β ε : Type} (e : ε) (f : α → Except ε β) :
    ((Except.error e : Except ε α) >>= f) = .error e := rfl

theorem exc_pure {α ε : Type} (a : α) : (pure a : Except ε α) = .ok a := rfl

theorem keywordScore_cases (wt d : List Char) :
    keywordScore wt d = 2 ∨ keywordScore wt d = 3 ∨
    keywordScore wt d = 4 ∨ keywordScore wt d = 5 := by
  unfold keywordScore
  repeat' split
  all_goals omega

/-- The rule-based result, explicitly: lowered fields feed the keyword
cascade, the low-confidence decrement, and the level table. -/
theorem rule_ok_elim (c : Classification) (r : SeverityResult)
    (h : estimate_severity_rule_based c = .ok r) :
    ∃ wt conf desc, pyLower c.waste_type = .ok wt ∧ pyLower c.confidence = .ok conf ∧
      pyLower c.description = .ok desc ∧
      r = { severity := .str (levelOfScore (if conf = "low".data then
              max 2 (keywordScore wt desc - 1) else keywordScore wt desc)),
            severity_score := .num (if conf = "low".data then
              max 2 (keywordScore wt desc - 1) else keywordScore wt desc),
            description := (levelIndex (levelOfScore (if conf = "low".data then
              max 2 (keywordScore wt desc - 1) else keywordScore wt desc))).description,
            response_time := (levelIndex (levelOfScore (if conf = "low".data then
              max 2 (keywordScore wt desc - 1) else keywordScore wt desc))).response_time,
            method := "rule-based".data } := by
  unfold estimate_severity_rule_based at h
  cases hwt : pyLower c.waste_type with
  | error e => rw [hwt, exc_bind_err] at h; exact absurd h (by simp)
  | ok wt =>
    cases hcf : pyLower c.confidence with
    | error e => rw [hwt, exc_bind_ok, hcf, exc_bind_err] at h; exact absurd h (by simp)
    | ok conf =>
      cases hds : pyLower c.description with
      | error e =>
        rw [hwt, exc_bind_ok, hcf, exc_bind_ok, hds, exc_bind_err] at h
        exact absurd h (by simp)
      | ok desc =>
        cases htg : pyLowerTags c.tags with
        | error e =>
          rw [hwt, exc_bind_ok, hcf, exc_bind_ok, hds, exc_bind_ok, htg, exc_bind_err] at h
          exact absurd h (by simp)
        | ok u =>
          rw [hwt, exc_bind_ok, hcf, exc_bind_ok, hds, exc_bind_ok, htg, exc_bind_ok,
            exc_pure] at h
          exact ⟨wt, conf, desc, rfl, rfl, rfl, (Except.ok.inj h).symm⟩

/-- Modelled from the spec (§4.2 table): mutual consistency of a level
name and a score per the fixed mapping 5→critical, 4→high, 3→medium,
2→low, 1→minimal.  This is the spec's wording, for comparison with the
code's `levelOfScore` chain. -/
def specLevelScoreConsistent (level score : Json) : Bool :=
  match level, score with
  | .str l, .num n =>
    (l == "critical".data && n == 5) || (l == "high".data && n == 4) ||
    (l == "medium".data && n == 3) || (l == "low".data && n == 2) ||
    (l == "minimal".data && n == 1)
  | _, _ => false

theorem consistent_of_levelOfScore (s : Int)
    (hs : s = 2 ∨ s = 3 ∨ s = 4 ∨ s = 5) :
    specLevelScoreConsistent (.str (levelOfScore s)) (.num s) = true := by
  rcases hs with rfl | rfl | rfl | rfl <;> decide

/-- The final rule-based score, case-split over the keyword cascade and
the confidence decrement. -/
theorem rule_score_cases (wt conf desc : List Char) :
    (if conf = "low".data then max 2 (keywordScore wt desc - 1)
     else keywordScore wt desc) = 2 ∨
    (if conf = "low".data then max 2 (keywordScore wt desc - 1)
     else keywordScore wt desc) = 3 ∨
    (if conf = "low".data then max 2 (keywordScore wt desc - 1)
     else keywordScore wt desc) = 4 ∨
    (if conf = "low".data then max 2 (keywordScore wt desc - 1)
     else keywordScore wt desc) = 5 := by
  have hkw := keywordScore_cases wt desc
  split
  · rcases hkw with hk | hk | hk | hk <;> rw [hk] <;> decide
  · exact hkw

/-! ## Claim C4 -/

/-- Concrete LLM-path input for claim C4: the severity collaborator
answers with a level of "low" but a score of 5. -/
def c4Classification : Classification := classifyTextFallback "photo".data

def c4SeverityText : List Char :=
  "\x7b\"severity\": \"low\", \"severity_score\": 5\x7d".data

/-- Claim C4, counterexample: the model-based path stores the model's
`severity_score` unvalidated, so a decoded `severity: "low"` together
with `severity_score: 5` produces an assessment whose level and score
violate the fixed 5→critical … 2→low mapping. -/
theorem c4_counterexample :
    (match estimate_severity_with_llm c4Classification c4SeverityText with
     | .ok r => specLevelScoreConsistent r.severity r.severity_score
     | .error _ => true) = false := by rfl

/-- Claim C4 (amended): every severity assessment the rule-based engine
returns has a `severity_score` in [1,5] that is mutually consistent
with its level per the fixed mapping; the model-based success path
copies the model's values unvalidated and is exempt. -/
theorem c4_rule_based_level_score_consistent (c : Classification)
    (r : SeverityResult) (h : estimate_severity_rule_based c = .ok r) :
    (∃ n : Int, r.severity_score = .num n ∧ 1 ≤ n ∧ n ≤ 5) ∧
    specLevelScoreConsistent r.severity r.severity_score = true := by
  obtain ⟨wt, conf, desc, _, _, _, rfl⟩ := rule_ok_elim c r h
  have hs := rule_score_cases wt conf desc
  constructor
  · exact ⟨_, rfl, by omega, by omega⟩
  · exact consistent_of_levelOfScore _ hs

/-- Witness for claim C4's amended theorem at the spec's scenario A
classification. -/
theorem c4_rule_based_level_score_consistent_witness :
    (∃ n : Int,
      Json.num (5 : Int) = .num n ∧ 1 ≤ n ∧ n ≤ 5) ∧
    specLevelScoreConsistent (.str "critical".data) (.num 5) = true := by
  have happ := c4_rule_based_level_score_consistent
    { waste_type := .str "Hazardous waste".data,
      confidence := .str "high".data,
      description := .str "leaking battery".data,
      tags := .arr .nil, visible_items := .arr .nil,
      raw_response := [], error := false }
    { severity := .str "critical".data, severity_score := .num 5,
      description := "Immediate threat to public health or environment".data,
      response_time := "Immediate (within 24 hours)".data,
      method := "rule-based".data }
    (by rfl)
  exact happ

/-! ## Claim C5 -/

/-- Claim C5, counterexample: "hazardous paper" contains a critical and
a low keyword, yet with confidence "low" the returned score is 4, not
5 — the confidence decrement applies after the keyword cascade. -/
theorem c5_counterexample :
    anyContained critical_keywords (lowerL "hazardous paper".data) = true ∧
    anyContained low_keywords (lowerL "hazardous paper".data) = true ∧
    (match estimate_severity_rule_based
        { waste_type := .str "hazardous paper".data,
          confidence := .str "low".data,
          description := .str [],
          tags := .arr .nil, visible_items := .arr .nil,
          raw_response := [], error := false } with
     | .ok r => some r.severity_score
     | .error _ => none) = some (.num 4) := ⟨rfl, rfl, rfl⟩

/-- Claim C5 (amended): when the lowered waste type contains both a
critical and a low keyword, the keyword cascade yields 5 (critical
checked first, so critical dominates low), and the returned score is 5
unless confidence is "low", in which case the decrement makes it 4. -/
theorem c5_critical_dominates_low (c : Classification) (r : SeverityResult)
    (wt conf : List Char)
    (hw : c.waste_type = .str wt) (hc : c.confidence = .str conf)
    (hcrit : anyContained critical_keywords (lowerL wt) = true)
    (hlow : anyContained low_keywords (lowerL wt) = true)
    (h : estimate_severity_rule_based c = .ok r) :
    (∀ d, keywordScore (lowerL wt) d = 5) ∧
    r.severity_score = .num (if lowerL conf = "low".data then 4 else 5) := by
  obtain ⟨wt2, conf2, desc, hw2, hc2, _, rfl⟩ := rule_ok_elim c r h
  rw [hw] at hw2
  rw [hc] at hc2
  have hwt2 : wt2 = lowerL wt := (Except.ok.inj hw2).symm
  have hconf2 : conf2 = lowerL conf := (Except.ok.inj hc2).symm
  subst hwt2; subst hconf2
  have hks : ∀ d, keywordScore (lowerL wt) d = 5 := by
    intro d
    unfold keywordScore
    rw [hcrit]
    rfl
  refine ⟨hks, ?_⟩
  rw [hks desc]
  split <;> rfl

/-- Witness for claim C5's amended theorem: "hazardous paper" with high
confidence scores 5. -/
theorem c5_critical_dominates_low_witness :
    (∀ d, keywordScore (lowerL "hazardous paper".data) d = 5) ∧
    Json.num (5 : Int) =
      .num (if lowerL "high".data = "low".data then 4 else 5) := by
  have happ := c5_critical_dominates_low
    { waste_type := .str "hazardous paper".data,
      confidence := .str "high".data,
      description := .str [],
      tags := .arr .nil, visible_items := .arr .nil,
      raw_response := [], error := false }
    { severity := .str "critical".data, severity_score := .num 5,
      description := "Immediate threat to public health or environment".data,
      response_time := "Immediate (within 24 hours)".data,
      method := "rule-based".data }
    "hazardous paper".data "high".data rfl rfl rfl rfl (by rfl)
  exact happ

/-! ## Claim C6 -/

/-- Claim C6: with confidence "low" the rule-based score is the keyword
score reduced by 1 and floored at 2, hence always at least 2. -/
theorem c6_low_confidence_floored (c : Classification) (r : SeverityResult)
    (wt conf desc : List Char)
    (hw : c.waste_type = .str wt) (hc : c.confidence = .str conf)
    (hd : c.description = .str desc)
    (hlowconf : lowerL conf = "low".data)
    (h : estimate_severity_rule_based c = .ok r) :
    r.severity_score =
      .num (max 2 (keywordScore (lowerL wt) (lowerL desc) - 1)) ∧
    ∃ n : Int, r.severity_score = .num n ∧ 2 ≤ n := by
  obtain ⟨wt2, conf2, desc2, hw2, hc2, hd2, rfl⟩ := rule_ok_elim c r h
  rw [hw] at hw2; rw [hc] at hc2; rw [hd] at hd2
  have hwt2 : wt2 = lowerL wt := (Except.ok.inj hw2).symm
  have hconf2 : conf2 = lowerL conf := (Except.ok.inj hc2).symm
  have hdesc2 : desc2 = lowerL desc := (Except.ok.inj hd2).symm
  subst hwt2; subst hconf2; subst hdesc2
  rw [if_pos hlowconf]
  exact ⟨rfl, _, rfl, le_max_left 2 _⟩

/-- Witness for claim C6 at the spec's scenario B classification
("single item paper", low confidence): score 2. -/
theorem c6_low_confidence_floored_witness :
    Json.num (2 : Int) =
      .num (max 2 (keywordScore (lowerL "single item paper".data)
        (lowerL [])  - 1)) ∧
    ∃ n : Int, Json.num (2 : Int) = .num n ∧ 2 ≤ n := by
  have happ := c6_low_confidence_floored
    { waste_type := .str "single item paper".data,
      confidence := .str "low".data,
      description := .str [],
      tags := .arr .nil, visible_items := .arr .nil,
      raw_response := [], error := false }
    { severity := .str "low".data, severity_score := .num 2,
      description := "Minor issue, routine cleanup needed".data,
      response_time := "Regular schedule (within 2 weeks)".data,
      method := "rule-based".data }
    "single item paper".data "low".data [] rfl rfl rfl rfl (by rfl)
  exact happ

/-! ## Claim C10 -/

/-- Claim C10: the rule-based engine only ever returns scores in
\x7b2,3,4,5\x7d — the baseline is 3, keyword matches give 5, 4 or 2,
and the decrement is floored at 2 — so score 1 and the level "minimal"
are unreachable on the rule-based path. -/
theorem c10_rule_based_never_minimal (c : Classification)
    (r : SeverityResult) (h : estimate_severity_rule_based c = .ok r) :
    (∃ n : Int, r.severity_score = .num n ∧
      (n = 2 ∨ n = 3 ∨ n = 4 ∨ n = 5)) ∧
    r.severity ≠ .str "minimal".data := by
  obtain ⟨wt, conf, desc, _, _, _, rfl⟩ := rule_ok_elim c r h
  have hs := rule_score_cases wt conf desc
  refine ⟨⟨_, rfl, hs⟩, ?_⟩
  simp only [ne_eq, Json.str.injEq]
  rcases hs with hv | hv | hv | hv <;> rw [hv] <;> decide

/-- Witness for claim C10 at a classification matching no keyword set:
baseline score 3, level "medium". -/
theorem c10_rule_based_never_minimal_witness :
    (∃ n : Int, Json.num (3 : Int) = .num n ∧
      (n = 2 ∨ n = 3 ∨ n = 4 ∨ n = 5)) ∧
    Json.str "medium".data ≠ .str "minimal".data := by
  have happ := c10_rule_based_never_minimal
    { waste_type := .str "Glass waste".data,
      confidence := .str "high".data,
      description := .str "a bottle".data,
      tags := .arr .nil, visible_items := .arr .nil,
      raw_response := [], error := false }
    { severity := .str "medium".data, severity_score := .num 3,
      description := "Moderate concern requiring attention".data,
      response_time := "Standard (within 1 week)".data,
      method := "rule-based".data }
    (by rfl)
  exact happ

/-! ## Claim C3 -/

/-- If the `try` body lands on the rule engine, the whole
`estimate_severity_with_llm` equals the rule engine (also when the rule
engine itself raises: the `except` handler re-raises the same error). -/
theorem with_llm_eq_rule_of_body (c : Classification) (text : List Char)
    (hbody : severityLlmBody c text = estimate_severity_rule_based c) :
    estimate_severity_with_llm c text = estimate_severity_rule_based c := by
  unfold estimate_severity_with_llm
  rw [hbody]
  cases hr : estimate_severity_rule_based c with
  | ok r => rfl
  | error e => rfl

/-- Claim C3: on a failed severity call (sentinel text), an undecodable
response, or a decoded object without the level key (`"severity"`), the
model-based path returns exactly the rule engine's output, whose
`method` is "rule-based". -/
theorem c3_llm_failure_falls_back (c : Classification) (text : List Char)
    (h : isPref errSentinel text = true ∨ parse_json_from_text text = none ∨
      ∃ ms : JsonObj, parse_json_from_text text = some (.obj ms) ∧
        ms.hasKey "severity".data = false) :
    estimate_severity_with_llm c text = estimate_severity_rule_based c ∧
    ∀ r, estimate_severity_rule_based c = .ok r →
      r.method = "rule-based".data := by
  constructor
  · apply with_llm_eq_rule_of_body
    rcases h with herr | hnone | ⟨ms, hobj, hkey⟩
    · unfold severityLlmBody
      rw [if_pos herr]
    · unfold severityLlmBody
      by_cases herr : isPref errSentinel text = true
      · rw [if_pos herr]
      · rw [if_neg herr, hnone]
    · unfold severityLlmBody
      by_cases herr : isPref errSentinel text = true
      · rw [if_pos herr]
      · rw [if_neg herr, hobj]
        cases ms with
        | nil => rfl
        | cons k v tl =>
          show (pyIn "severity".data (Json.obj (.cons k v tl)) >>= fun cond =>
            if cond then _ else estimate_severity_rule_based c) = _
          rw [show pyIn "severity".data (Json.obj (.cons k v tl)) =
            .ok ((JsonObj.cons k v tl).hasKey "severity".data) from rfl, hkey,
            exc_bind_ok]
          rfl
  · intro r hr
    obtain ⟨_, _, _, _, _, _, rfl⟩ := rule_ok_elim c r hr
    rfl

/-- Witness for claim C3: a prose-only severity response decodes to
nothing and lands on the rule engine. -/
theorem c3_llm_failure_falls_back_witness :
    parse_json_from_text "No structured answer here.".data = none ∧
    estimate_severity_with_llm
        { waste_type := .str "Glass waste".data,
          confidence := .str "high".data,
          description := .str "a bottle".data,
          tags := .arr .nil, visible_items := .arr .nil,
          raw_response := [], error := false }
        "No structured answer here.".data =
      estimate_severity_rule_based
        { waste_type := .str "Glass waste".data,
          confidence := .str "high".data,
          description := .str "a bottle".data,
          tags := .arr .nil, visible_items := .arr .nil,
          raw_response := [], error := false } := by
  refine ⟨rfl, ?_⟩
  exact (c3_llm_failure_falls_back
    { waste_type := .str "Glass waste".data,
      confidence := .str "high".data,
      description := .str "a bottle".data,
      tags := .arr .nil, visible_items := .arr .nil,
      raw_response := [], error := false }
    "No structured answer here.".data (Or.inr (Or.inl rfl))).1

/-! ## Claim C2 -/

/-- Claim C2, counterexample: `parse_json_from_text` itself has no
sentinel short-circuit — on a text that begins with the failure marker
and carries JSON-like content further on, it extracts and returns that
JSON instead of returning no result. -/
theorem c2_counterexample :
    isPref errSentinel "ERROR: upstream failed \x7b\"a\": 1\x7d".data = true ∧
    parse_json_from_text "ERROR: upstream failed \x7b\"a\": 1\x7d".data =
      some (.obj (.cons "a".data (.num 1) .nil)) := ⟨rfl, rfl⟩

/-- When the sentinel is present, `classify_waste` returns the error
fallback without consulting the decoder. -/
theorem classify_on_sentinel (text : List Char)
    (h : isPref errSentinel text = true) :
    classify_waste text = _create_fallback_classification text := by
  unfold classify_waste classifyBody
  rw [if_pos h]
  rfl

/-- A fallback report ignores its `error_msg` argument when deciding
success: it fails exactly when `severity.severity` has no `.upper()`. -/
theorem fallback_report_err_indep (c : Classification) (sev : SeverityResult)
    (location m1 m2 n1 n2 : List Char) (e : PyErr)
    (h : _create_fallback_report c sev location m1 n1 n2 = .error e) :
    _create_fallback_report c sev location m2 n1 n2 = .error e := by
  unfold _create_fallback_report at h ⊢
  cases hu : pyUpper sev.severity with
  | ok up =>
    simp only [hu, exc_bind_ok, exc_pure] at h
    exact absurd h (by simp)
  | error e2 =>
    simp only [hu, exc_bind_err] at h ⊢
    exact h

/-- Claim C2 (amended): the short-circuit on the failure sentinel lives
in the decoder's callers, not in the decoder.  When the extracted text
begins with `ERROR:`, `classify_waste` returns its error fallback, the
model-based severity path returns the rule engine's output, and the
report generator returns the template fallback — in each case without
the decode influencing the result (the report conjunct assumes the
context block was built, i.e. joining `visible_items` did not raise
first). -/
theorem c2_sentinel_short_circuit_in_callers
    (text : List Char) (h : isPref errSentinel text = true)
    (c : Classification) (sev : SeverityResult)
    (location notes n1 n2 js : List Char)
    (hj : pyJoinComma c.visible_items = .ok js) :
    classify_waste text = _create_fallback_classification text ∧
    estimate_severity_with_llm c text = estimate_severity_rule_based c ∧
    generate_civic_report c sev location notes text n1 n2 =
      _create_fallback_report c sev location text n1 n2 := by
  refine ⟨classify_on_sentinel text h, ?_, ?_⟩
  · apply with_llm_eq_rule_of_body
    unfold severityLlmBody
    rw [if_pos h]
  · unfold generate_civic_report generateBody
    rw [hj, exc_bind_ok, if_pos h]
    cases hfb : _create_fallback_report c sev location text n1 n2 with
    | ok r => rfl
    | error e =>
      exact fallback_report_err_indep c sev location text _ n1 n2 e hfb

/-- Witness for claim C2's amended theorem on a sentinel text carrying
trailing JSON. -/
theorem c2_sentinel_short_circuit_in_callers_witness :
    isPref errSentinel "ERROR: nope \x7b\"a\": 1\x7d".data = true ∧
    estimate_severity_with_llm
        (classifyTextFallback "t".data) "ERROR: nope \x7b\"a\": 1\x7d".data =
      estimate_severity_rule_based (classifyTextFallback "t".data) := by
  refine ⟨rfl, ?_⟩
  exact (c2_sentinel_short_circuit_in_callers
    "ERROR: nope \x7b\"a\": 1\x7d".data rfl
    (classifyTextFallback "t".data)
    { severity := .str "low".data, severity_score := .num 2,
      description := "Minor issue, routine cleanup needed".data,
      response_time := "Regular schedule (within 2 weeks)".data,
      method := "rule-based".data }
    [] [] [] [] [] rfl).2.1

/-! ## Claim C7 -/

/-- Claim C7: the section parser is total by construction (every
`List Char` yields a `ReportSections`, the empty string included), and
whenever all five per-field matches come back empty the whole narrative
is stored verbatim in `executive_summary` with the other fields empty. -/
theorem c7_section_parser_verbatim_fallback (t : List Char)
    (h : allSectionsEmpty (reportSectionsRaw t) = true) :
    _parse_report_sections t =
      { executive_summary := t, detailed_findings := [],
        risk_assessment := [], recommended_actions := [],
        priority_level := [] } := by
  simp only [_parse_report_sections]
  rw [if_pos h]

/-- Witness for claim C7 at the empty narrative: `parse("")` stores the
(empty) input in `executive_summary` and returns normally. -/
theorem c7_section_parser_verbatim_fallback_witness :
    allSectionsEmpty (reportSectionsRaw []) = true ∧
    _parse_report_sections [] =
      { executive_summary := [], detailed_findings := [],
        risk_assessment := [], recommended_actions := [],
        priority_level := [] } :=
  ⟨rfl, c7_section_parser_verbatim_fallback [] rfl⟩

/-! ## Claim C1 -/

/-- Concrete run for claim C1's counterexample: the classification
collaborator reports the failure signal, the report collaborator fails
too, severity is rule-based. -/
def c1Oracle : CallOracle :=
  { encode_image := .ok "imagebytes".data,
    classify_text := "ERROR: VLM API call failed: timeout".data,
    severity_text := "unused".data,
    report_text := "ERROR: LLM API call failed: down".data,
    now_compact := "20251012093000".data,
    now_stamp := "2025-10-12 09:30:00".data }

/-- Claim C1, counterexample: with the classification collaborator
returning the failure signal, the run does not abort — `classify_waste`
substitutes its error fallback, both later stages execute, and the
record's status is "complete", not "error". -/
theorem c1_counterexample :
    isPref errSentinel c1Oracle.classify_text = true ∧
    (analyze_image c1Oracle "Central Park".data [] false).status =
      "complete".data ∧
    (analyze_image c1Oracle "Central Park".data [] false).steps.severity.isSome
      = true ∧
    (analyze_image c1Oracle "Central Park".data [] false).steps.report.isSome
      = true :=
  ⟨rfl, rfl, rfl, rfl⟩

/-- The fallback report succeeds whenever the severity level is a
string (its only failure point is `severity_level.upper()`). -/
theorem fallback_report_ok_of_str (c : Classification) (sev : SeverityResult)
    (lv : List Char) (hstr : sev.severity = .str lv)
    (location msg n1 n2 : List Char) :
    ∃ r, _create_fallback_report c sev location msg n1 n2 = .ok r := by
  have hu : pyUpper sev.severity = .ok (upperL lv) := by rw [hstr]; rfl
  unfold _create_fallback_report
  simp only [hu, exc_bind_ok, exc_pure]
  exact ⟨_, rfl⟩

/-- The report stage succeeds whenever the severity level is a string
and the context block can be built. -/
theorem generate_ok_of_str (c : Classification) (sev : SeverityResult)
    (lv js : List Char) (hstr : sev.severity = .str lv)
    (hj : pyJoinComma c.visible_items = .ok js)
    (location notes rt n1 n2 : List Char) :
    ∃ r, generate_civic_report c sev location notes rt n1 n2 = .ok r := by
  unfold generate_civic_report generateBody
  rw [hj, exc_bind_ok]
  by_cases hrt : isPref errSentinel rt = true
  · rw [if_pos hrt]
    obtain ⟨r, hr⟩ := fallback_report_ok_of_str c sev lv hstr location rt n1 n2
    rw [hr]
    exact ⟨r, rfl⟩
  · rw [if_neg hrt]
    exact ⟨_, rfl⟩

/-- Claim C1 (amended): a stage-1 failure signal does not abort the
run.  `classify_waste` substitutes its error fallback and the pipeline
continues through the severity and report stages to `status =
"complete"` (stated for runs whose severity stage returns with a string
level, which the rule-based path always does); only a pre-stage or
escaping exception yields `status = "error"`. -/
theorem c1_stage1_failure_does_not_abort
    (o : CallOracle) (location notes : List Char) (use_llm : Bool)
    (img : List Char) (sev : SeverityResult) (lv : List Char)
    (henc : o.encode_image = .ok img)
    (hcls : isPref errSentinel o.classify_text = true)
    (hsev : estimate_severity (classify_waste o.classify_text)
      o.severity_text use_llm = .ok sev)
    (hstr : sev.severity = .str lv) :
    (analyze_image o location notes use_llm).status = "complete".data ∧
    (analyze_image o location notes use_llm).steps.severity = some sev ∧
    (analyze_image o location notes use_llm).steps.report.isSome = true := by
  have hcw : classify_waste o.classify_text =
      _create_fallback_classification o.classify_text :=
    classify_on_sentinel _ hcls
  have hj : pyJoinComma (classify_waste o.classify_text).visible_items =
      .ok [] := by rw [hcw]; rfl
  obtain ⟨r, hr⟩ := generate_ok_of_str (classify_waste o.classify_text) sev lv
    [] hstr hj location notes o.report_text o.now_compact o.now_stamp
  simp only [analyze_image, henc, hsev, hr]
  refine ⟨?_, ?_, ?_⟩ <;> first | rfl | trivial

/-- Witness for claim C1's amended theorem: the counterexample oracle's
scenario, severity computed rule-based on the fallback classification. -/
theorem c1_stage1_failure_does_not_abort_witness :
    (analyze_image c1Oracle "Central Park".data [] false).status =
      "complete".data ∧
    (analyze_image c1Oracle "Central Park".data [] false).steps.severity =
      some { severity := .str "low".data, severity_score := .num 2,
             description := "Minor issue, routine cleanup needed".data,
             response_time := "Regular schedule (within 2 weeks)".data,
             method := "rule-based".data } ∧
    (analyze_image c1Oracle "Central Park".data [] false).steps.report.isSome
      = true := by
  exact c1_stage1_failure_does_not_abort c1Oracle "Central Park".data [] false
    "imagebytes".data
    { severity := .str "low".data, severity_score := .num 2,
      description := "Minor issue, routine cleanup needed".data,
      response_time := "Regular schedule (within 2 weeks)".data,
      method := "rule-based".data }
    "low".data rfl rfl (by rfl) rfl

/-! ## Claim C8 -/

/-- Failing input for claim C8: the severity collaborator answers with
valid JSON whose `severity` is the integer 5 (a score put in the level
slot), and the report collaborator then returns the failure signal. -/
def c8Oracle : CallOracle :=
  { encode_image := .ok "imagebytes".data,
    classify_text := ("\x7b\"waste_type\": \"Plastic waste\", " ++
      "\"confidence\": \"high\", \"description\": \"bottles\"\x7d").data,
    severity_text := "\x7b\"severity\": 5\x7d".data,
    report_text := "ERROR: LLM API call failed: down".data,
    now_compact := "20251012093000".data,
    now_stamp := "2025-10-12 09:30:00".data }

/-- Claim C8 (code bug): on this run the report-drafting collaborator
returns the failure signal, but instead of the promised fallback report
with `is_fallback` and an upper-cased priority, `_create_fallback_report`
evaluates `severity_level.upper()` on the integer severity level the
model-based severity path stored, raises `AttributeError` — again inside
the `except` handler — and the whole run aborts with `status = "error"`
and no report at all. -/
theorem c8_report_fallback_crash :
    isPref errSentinel c8Oracle.report_text = true ∧
    (match (analyze_image c8Oracle "Park".data [] true).steps.severity with
     | some s => s.severity
     | none => .null) = .num 5 ∧
    (analyze_image c8Oracle "Park".data [] true).status = "error".data ∧
    (analyze_image c8Oracle "Park".data [] true).steps.report = none ∧
    (analyze_image c8Oracle "Park".data [] true).error =
      some .attributeError :=
  ⟨rfl, rfl, rfl, rfl, rfl⟩

/-! ## Well-formedness, size and roundtrip of the JSON codec (claim C9) -/

def headDigit : List Char → Bool
  | [] => false
  | c :: _ => isDigitCh c

/-- Characters that may legally follow a rendered value: nothing, or a
separator/closer emitted by the surrounding rendering. -/
def sepOk : List Char → Bool
  | [] => true
  | c :: _ => c == ',' || c == ']' || c == '\x7d'

/-- Object keys pairwise distinct. -/
def keysNodup : JsonObj → Bool
  | .nil => true
  | .cons k _ tl => !(JsonObj.hasKey k tl) && keysNodup tl

mutual
/-- Well-formed JSON values: every object layer has distinct keys —
exactly the values `json.loads` can produce. -/
def Json.wf : Json → Bool
  | .null => true
  | .bool _ => true
  | .num _ => true
  | .nan => true
  | .inf _ => true
  | .str _ => true
  | .arr xs => JsonArr.wf xs
  | .obj ms => keysNodup ms && JsonObj.wf ms
def JsonArr.wf : JsonArr → Bool
  | .nil => true
  | .cons x tl => Json.wf x && JsonArr.wf tl
def JsonObj.wf : JsonObj → Bool
  | .nil => true
  | .cons _ v tl => Json.wf v && JsonObj.wf tl
end

mutual
/-- Node count, bounding the parser fuel a value needs. -/
def Json.jsize : Json → Nat
  | .null => 1
  | .bool _ => 1
  | .num _ => 1
  | .nan => 1
  | .inf _ => 1
  | .str _ => 1
  | .arr xs => JsonArr.jsize xs + 1
  | .obj ms => JsonObj.jsize ms + 1
def JsonArr.jsize : JsonArr → Nat
  | .nil => 0
  | .cons x tl => Json.jsize x + JsonArr.jsize tl + 1
def JsonObj.jsize : JsonObj → Nat
  | .nil => 0
  | .cons _ v tl => Json.jsize v + JsonObj.jsize tl + 1
end

def objAppend : JsonObj → JsonObj → JsonObj
  | .nil, o => o
  | .cons k v tl, o => .cons k v (objAppend tl o)

/-- Every key of the first object absent from the second. -/
def keysDisjoint : JsonObj → JsonObj → Bool
  | .nil, _ => true
  | .cons k _ tl, acc => !(JsonObj.hasKey k acc) && keysDisjoint tl acc

mutual
/-- `true` iff the `NaN` constant occurs nowhere in the value. -/
def Json.nanFree : Json → Bool
  | .null => true
  | .bool _ => true
  | .num _ => true
  | .nan => false
  | .inf _ => true
  | .str _ => true
  | .arr xs => JsonArr.nanFree xs
  | .obj ms => JsonObj.nanFree ms
def JsonArr.nanFree : JsonArr → Bool
  | .nil => true
  | .cons x tl => Json.nanFree x && JsonArr.nanFree tl
def JsonObj.nanFree : JsonObj → Bool
  | .nil => true
  | .cons _ v tl => Json.nanFree v && JsonObj.nanFree tl
end

mutual
/-- Modelled from Python `==` (`PyObject_RichCompare`) on the values
`json.loads` returns. `NaN` is unequal to everything, itself included
(`float.__eq__`); booleans compare equal to the matching integers
(`True == 1`, `False == 0`); infinities compare by sign; lists compare
element-wise; dicts compare order-insensitively, each member of the left
looked up in the right (`pyEqObjSub`) under equal sizes. The identity
fast path CPython containers add (`PyObject_RichCompareBool`) is not
modelled; see the module docstring. -/
def pyEqJson : Json → Json → Bool
  | .null, .null => true
  | .bool b, .bool c => b == c
  | .bool b, .num n => (if b then (1 : Int) else 0) == n
  | .num n, .bool b => n == (if b then (1 : Int) else 0)
  | .num n, .num m => n == m
  | .inf s, .inf t => s == t
  | .str s, .str t => s == t
  | .arr xs, .arr ys => pyEqArr xs ys
  | .obj a, .obj b => a.length == b.length && pyEqObjSub a b
  | _, _ => false
def pyEqArr : JsonArr → JsonArr → Bool
  | .nil, .nil => true
  | .cons x xs, .cons y ys => pyEqJson x y && pyEqArr xs ys
  | _, _ => false
def pyEqObjSub : JsonObj → JsonObj → Bool
  | .nil, _ => true
  | .cons k v tl, b =>
    (match JsonObj.find? k b with
     | some w => pyEqJson v w
     | none => false) && pyEqObjSub tl b
end

/-! ## Roundtrip lemmas for the JSON codec (claim C9) -/

theorem natDigitsF_stable : ∀ f g n, 1 ≤ f → f ≤ g → n < 10 ^ f →
    natDigitsF f n = natDigitsF g n := by
  intro f
  induction f with
  | zero => intro g n h; omega
  | succ f ih =>
    intro g n _ hfg hn
    cases g with
    | zero => omega
    | succ g =>
      show natDigitsF (f + 1) n = natDigitsF (g + 1) n
      by_cases h10 : n < 10
      · simp [natDigitsF, h10]
      · simp only [natDigitsF, if_neg h10]
        have hf1 : 1 ≤ f := by
          rcases Nat.eq_zero_or_pos f with rfl | h
          · norm_num at hn; omega
          · exact h
        have hdiv : n / 10 < 10 ^ f := by
          rw [pow_succ] at hn
          omega
        rw [ih g (n / 10) hf1 (by omega) hdiv]

theorem natDigits_unfold (n : Nat) :
    natDigits n = if n < 10 then [Char.ofNat (n + 48)]
      else natDigits (n / 10) ++ [Char.ofNat (n % 10 + 48)] := by
  by_cases h10 : n < 10
  · simp [natDigits, natDigitsF, h10]
  · show natDigitsF (n + 1) n = _
    rw [if_neg h10]
    show (if n < 10 then _ else natDigitsF n (n / 10) ++ _) = _
    rw [if_neg h10]
    have hd : natDigitsF (n / 10 + 1) (n / 10) = natDigitsF n (n / 10) := by
      apply natDigitsF_stable
      · omega
      · omega
      · have := Nat.lt_pow_self (by norm_num : 1 < 10) (n := n / 10)
        calc n / 10 < 10 ^ (n / 10) := this
        _ ≤ 10 ^ (n / 10 + 1) := Nat.pow_le_pow_right (by norm_num) (by omega)
    rw [natDigits, hd]

theorem digitVal_ofNat (k : Nat) (h : k < 10) :
    digitVal (Char.ofNat (k + 48)) = k := by
  interval_cases k <;> decide

theorem isDigitCh_ofNat (k : Nat) (h : k < 10) :
    isDigitCh (Char.ofNat (k + 48)) = true := by
  interval_cases k <;> decide

theorem natDigits_head (m : Nat) (h : 1 ≤ m) :
    ∃ c cs, natDigits m = c :: cs ∧ (c == '0') = false ∧ isDigitCh c = true := by
  induction m using Nat.strong_induction_on with
  | _ m ih =>
    rw [natDigits_unfold]
    by_cases h10 : m < 10
    · rw [if_pos h10]
      interval_cases m <;> exact ⟨_, _, rfl, by decide, by decide⟩
    · rw [if_neg h10]
      obtain ⟨c, cs, heq, hc0, hcd⟩ := ih (m / 10) (by omega) (by omega)
      exact ⟨c, cs ++ [Char.ofNat (m % 10 + 48)], by rw [heq]; rfl, hc0, hcd⟩

theorem parseDigits_step (acc : Nat) (c : Char) (l : List Char)
    (h : isDigitCh c = true) :
    parseDigits acc (c :: l) = parseDigits (acc * 10 + digitVal c) l := by
  simp [parseDigits, h]

theorem parseDigits_stop (acc : Nat) (l : List Char) (h : headDigit l = false) :
    parseDigits acc l = (acc, l) := by
  cases l with
  | nil => rfl
  | cons c t =>
    simp only [headDigit] at h
    simp [parseDigits, h]

theorem parseDigits_digits : ∀ m acc rest,
    parseDigits acc (natDigits m ++ rest) =
      parseDigits (acc * 10 ^ (natDigits m).length + m) rest := by
  intro m
  induction m using Nat.strong_induction_on with
  | _ m ih =>
    intro acc rest
    rw [natDigits_unfold]
    by_cases h10 : m < 10
    · rw [if_pos h10]
      rw [show ([Char.ofNat (m + 48)] ++ rest) = Char.ofNat (m + 48) :: rest from rfl,
        parseDigits_step _ _ _ (isDigitCh_ofNat m h10), digitVal_ofNat m h10]
      norm_num
    · rw [if_neg h10, List.append_assoc]
      rw [ih (m / 10) (by omega)]
      rw [show ([Char.ofNat (m % 10 + 48)] ++ rest) = Char.ofNat (m % 10 + 48) :: rest from rfl,
        parseDigits_step _ _ _ (isDigitCh_ofNat (m % 10) (by omega)),
        digitVal_ofNat (m % 10) (by omega)]
      have hlen : (natDigits (m / 10) ++ [Char.ofNat (m % 10 + 48)]).length =
          (natDigits (m / 10)).length + 1 := by simp
      rw [hlen]
      congr 1
      calc (acc * 10 ^ (natDigits (m / 10)).length + m / 10) * 10 + m % 10
          = acc * (10 ^ (natDigits (m / 10)).length * 10) +
              (m / 10 * 10 + m % 10) := by ring
        _ = acc * 10 ^ ((natDigits (m / 10)).length + 1) + m := by
            rw [← pow_succ]
            omega

theorem sepOk_not_digit (l : List Char) (h : sepOk l = true) :
    headDigit l = false := by
  cases l with
  | nil => rfl
  | cons c t =>
    simp only [sepOk, Bool.or_eq_true, beq_iff_eq] at h
    rcases h with (rfl | rfl) | rfl <;> rfl

theorem sepOk_not_float (l : List Char) (h : sepOk l = true) :
    isFloatCont l = false := by
  cases l with
  | nil => rfl
  | cons c t =>
    simp only [sepOk, Bool.or_eq_true, beq_iff_eq] at h
    rcases h with (rfl | rfl) | rfl <;> rfl

theorem parseUnsigned_render (m : Nat) (rest : List Char)
    (hrest : sepOk rest = true) :
    parseUnsigned (natDigits m ++ rest) = some (m, rest) := by
  by_cases hm : m = 0
  · subst hm
    show parseUnsigned ('0' :: rest) = some (0, rest)
    simp [parseUnsigned, sepOk_not_float rest hrest]
  · obtain ⟨c, cs, heq, hc0, hcd⟩ := natDigits_head m (by omega)
    have hkey : parseDigits 0 (natDigits m ++ rest) = (m, rest) := by
      rw [parseDigits_digits, parseDigits_stop _ _ (sepOk_not_digit rest hrest)]
      norm_num
    rw [heq]
    show parseUnsigned (c :: (cs ++ rest)) = some (m, rest)
    rw [heq] at hkey
    rw [show ((c :: cs) ++ rest) = c :: (cs ++ rest) from rfl,
      parseDigits_step _ _ _ hcd] at hkey
    simp only [parseUnsigned, hc0, if_false, hcd, if_true]
    rw [show (0 : Nat) * 10 + digitVal c = digitVal c from by omega] at hkey
    rw [hkey]
    simp [sepOk_not_float rest hrest]

theorem parseNum_render (n : Int) (rest : List Char)
    (hrest : sepOk rest = true) :
    parseNum (renderInt n ++ rest) = some (n, rest) := by
  unfold renderInt
  by_cases hn : n < 0
  · rw [if_pos hn]
    show parseNum ('-' :: (natDigits n.natAbs ++ rest)) = some (n, rest)
    simp only [parseNum, show (('-' : Char) == '-') = true from rfl, if_true,
      parseUnsigned_render n.natAbs rest hrest]
    rw [show -((n.natAbs : Nat) : Int) = n from by omega]
  · rw [if_neg hn]
    obtain ⟨c, cs, heq, hc0, hcd⟩ : ∃ c cs, natDigits n.natAbs = c :: cs ∧
        (c == '-') = false ∧ True := by
      by_cases hz : n.natAbs = 0
      · rw [hz]
        exact ⟨'0', [], rfl, by decide, trivial⟩
      · obtain ⟨c, cs, heq, _, hcd⟩ := natDigits_head n.natAbs (by omega)
        refine ⟨c, cs, heq, ?_, trivial⟩
        cases hbe : c == '-'
        · rfl
        · rw [eq_of_beq hbe] at hcd
          exact absurd hcd (by decide)
    have hpu := parseUnsigned_render n.natAbs rest hrest
    rw [heq]
    rw [heq] at hpu
    show parseNum (c :: (cs ++ rest)) = some (n, rest)
    simp only [parseNum, hc0, if_false]
    rw [show (c :: (cs ++ rest)) = (c :: cs) ++ rest from rfl, hpu]
    show some (((n.natAbs : Nat) : Int), rest) = some (n, rest)
    rw [show ((n.natAbs : Nat) : Int) = n from by omega]

theorem parseStr_escape : ∀ (s r : List Char),
    parseStr (escapeStr s ++ '"' :: r) = some (s, r) := by
  intro s
  induction s with
  | nil =>
    intro r
    show parseStr ('"' :: r) = some ([], r)
    rw [parseStr.eq_def]
    rfl
  | cons c s ih =>
    intro r
    by_cases hq : c = '"'
    · subst hq
      show parseStr ('\\' :: '"' :: (escapeStr s ++ '"' :: r)) = _
      rw [parseStr.eq_def]
      simp only [ih r]
      rfl
    · by_cases hb : c = '\\'
      · subst hb
        show parseStr ('\\' :: '\\' :: (escapeStr s ++ '"' :: r)) = _
        rw [parseStr.eq_def]
        simp only [ih r]
        rfl
      · have h1 : (c == '"') = false := by simp [hq]
        have h2 : (c == '\\') = false := by simp [hb]
        have hstep : escapeStr (c :: s) ++ '"' :: r = c :: (escapeStr s ++ '"' :: r) := by
          simp [escapeStr, escChar, h1, h2]
        rw [hstep, parseStr.eq_def]
        simp only [h1, h2, ih r]
        rfl

theorem char_toNat_facts (c : Char) (hlo : 48 ≤ c.toNat) (hhi : c.toNat ≤ 57) :
    isJsonWs c = false ∧ (c == 'n') = false ∧ (c == 't') = false ∧
    (c == 'f') = false ∧ (c == '"') = false ∧ (c == '[') = false ∧
    (c == '\x7b') = false ∧ (c == ']') = false ∧ (c == '\x7d') = false ∧
    (c == ',') = false ∧ (c == '-') = false := by
  have hval : ∀ (d : Char), c = d → 48 ≤ d.toNat ∧ d.toNat ≤ 57 := by
    intro d hd; subst hd; exact ⟨hlo, hhi⟩
  refine ⟨?_, ?_, ?_, ?_, ?_, ?_, ?_, ?_, ?_, ?_, ?_⟩
  · unfold isJsonWs
    have h1 : (c == ' ') = false := by
      cases hbe : c == ' '
      · rfl
      · exact absurd (hval ' ' (eq_of_beq hbe)) (by decide)
    have h2 : (c == '\t') = false := by
      cases hbe : c == '\t'
      · rfl
      · exact absurd (hval '\t' (eq_of_beq hbe)) (by decide)
    have h3 : (c == '\n') = false := by
      cases hbe : c == '\n'
      · rfl
      · exact absurd (hval '\n' (eq_of_beq hbe)) (by decide)
    have h4 : (c == '\r') = false := by
      cases hbe : c == '\r'
      · rfl
      · exact absurd (hval '\r' (eq_of_beq hbe)) (by decide)
    rw [h1, h2, h3, h4]
    rfl
  all_goals
    first
    | (cases hbe : c == 'n'
       · rfl
       · exact absurd (hval 'n' (eq_of_beq hbe)) (by decide))
    | (cases hbe : c == 't'
       · rfl
       · exact absurd (hval 't' (eq_of_beq hbe)) (by decide))
    | (cases hbe : c == 'f'
       · rfl
       · exact absurd (hval 'f' (eq_of_beq hbe)) (by decide))
    | (cases hbe : c == '"'
       · rfl
       · exact absurd (hval '"' (eq_of_beq hbe)) (by decide))
    | (cases hbe : c == '['
       · rfl
       · exact absurd (hval '[' (eq_of_beq hbe)) (by decide))
    | (cases hbe : c == '\x7b'
       · rfl
       · exact absurd (hval '\x7b' (eq_of_beq hbe)) (by decide))
    | (cases hbe : c == ']'
       · rfl
       · exact absurd (hval ']' (eq_of_beq hbe)) (by decide))
    | (cases hbe : c == '\x7d'
       · rfl
       · exact absurd (hval '\x7d' (eq_of_beq hbe)) (by decide))
    | (cases hbe : c == ','
       · rfl
       · exact absurd (hval ',' (eq_of_beq hbe)) (by decide))
    | (cases hbe : c == '-'
       · rfl
       · exact absurd (hval '-' (eq_of_beq hbe)) (by decide))

theorem digit_facts (c : Char) (h : isDigitCh c = true) :
    isJsonWs c = false ∧ (c == 'n') = false ∧ (c == 't') = false ∧
    (c == 'f') = false ∧ (c == '"') = false ∧ (c == '[') = false ∧
    (c == '\x7b') = false ∧ (c == ']') = false ∧ (c == '\x7d') = false ∧
    (c == ',') = false ∧ (c == '-') = false := by
  unfold isDigitCh at h
  simp only [Bool.and_eq_true, decide_eq_true_eq] at h
  exact char_toNat_facts c h.1 h.2

/-- A digit compares unequal (in both orders) to any character outside
the digit range. -/
theorem digit_beq_false (c : Char) (h : isDigitCh c = true) (d : Char)
    (hd : d.toNat < 48 ∨ 57 < d.toNat) :
    (c == d) = false ∧ (d == c) = false := by
  unfold isDigitCh at h
  simp only [Bool.and_eq_true, decide_eq_true_eq] at h
  constructor
  · cases hbe : c == d
    · rfl
    · rw [eq_of_beq hbe] at h
      omega
  · cases hbe : d == c
    · rfl
    · rw [← eq_of_beq hbe] at h
      omega

theorem skipWs_cons (c : Char) (l : List Char) (h : isJsonWs c = false) :
    skipWs (c :: l) = c :: l := by
  simp [skipWs, h]

/-- The first character of a rendered value, with everything the
roundtrip needs to know about it. -/
theorem renderHeadOk (v : Json) :
    ∃ c t, Json.render v = c :: t ∧ isJsonWs c = false ∧
      (c == ']') = false ∧ (c == '\x7d') = false ∧ (c == ',') = false := by
  cases v with
  | null => exact ⟨'n', _, rfl, by decide, by decide, by decide, by decide⟩
  | bool b =>
    cases b with
    | true => exact ⟨'t', _, rfl, by decide, by decide, by decide, by decide⟩
    | false => exact ⟨'f', _, rfl, by decide, by decide, by decide, by decide⟩
  | str s => exact ⟨'"', _, rfl, by decide, by decide, by decide, by decide⟩
  | nan => exact ⟨'N', _, rfl, by decide, by decide, by decide, by decide⟩
  | inf b =>
    cases b with
    | false => exact ⟨'I', _, rfl, by decide, by decide, by decide, by decide⟩
    | true => exact ⟨'-', _, rfl, by decide, by decide, by decide, by decide⟩
  | arr xs => exact ⟨'[', _, rfl, by decide, by decide, by decide, by decide⟩
  | obj ms => exact ⟨'\x7b', _, rfl, by decide, by decide, by decide, by decide⟩
  | num n =>
    show ∃ c t, renderInt n = c :: t ∧ _
    unfold renderInt
    by_cases hn : n < 0
    · rw [if_pos hn]
      exact ⟨'-', _, rfl, by decide, by decide, by decide, by decide⟩
    · rw [if_neg hn]
      by_cases hz : n.natAbs = 0
      · rw [hz]
        exact ⟨'0', _, rfl, by decide, by decide, by decide, by decide⟩
      · obtain ⟨c, cs, heq, _, hcd⟩ := natDigits_head n.natAbs (by omega)
        obtain ⟨hws, _, _, _, _, _, _, hbr, hbr2, hcm, _⟩ := digit_facts c hcd
        exact ⟨c, cs, heq, hws, hbr, hbr2, hcm⟩

/-- Induction along the member spine of an object (the values are not
recursed into). -/
def objInd {motive : JsonObj → Prop} (h0 : motive .nil)
    (h1 : ∀ k v tl, motive tl → motive (.cons k v tl)) : ∀ o, motive o
  | .nil => h0
  | .cons k v tl => h1 k v tl (objInd h0 h1 tl)

/-- Induction along the element spine of an array. -/
def arrInd {motive : JsonArr → Prop} (h0 : motive .nil)
    (h1 : ∀ x tl, motive tl → motive (.cons x tl)) : ∀ o, motive o
  | .nil => h0
  | .cons x tl => h1 x tl (arrInd h0 h1 tl)

theorem objAppend_nil : ∀ (a : JsonObj), objAppend a .nil = a := by
  intro a
  induction a using objInd with
  | h0 => rfl
  | h1 k v tl ih => simp [objAppend, ih]

theorem hasKey_insert (k2 k : List Char) (v : Json) :
    ∀ (acc : JsonObj),
      JsonObj.hasKey k2 (acc.insert k v) =
        (JsonObj.hasKey k2 acc || k2 == k) := by
  intro acc
  induction acc using objInd with
  | h0 => simp [JsonObj.insert, JsonObj.hasKey]
  | h1 ka va tl ih =>
    by_cases hk : k = ka
    · subst hk
      simp [JsonObj.insert, JsonObj.hasKey]
      by_cases h2 : k2 = k
      · subst h2; simp
      · simp [h2]
    · have : (k == ka) = false := by simp [hk]
      simp [JsonObj.insert, this, JsonObj.hasKey, ih]
      by_cases h2 : k2 = ka
      · subst h2; simp
      · simp [h2, Bool.or_assoc]

theorem insert_not_mem (k : List Char) (v : Json) :
    ∀ (acc : JsonObj), JsonObj.hasKey k acc = false →
      acc.insert k v = objAppend acc (.cons k v .nil) := by
  intro acc
  induction acc using objInd with
  | h0 => intro _; rfl
  | h1 ka va tl ih =>
    intro h
    simp only [JsonObj.hasKey, Bool.or_eq_false_iff] at h
    simp [JsonObj.insert, h.1, objAppend, ih h.2]

theorem keysDisjoint_insert (k : List Char) (v : Json) :
    ∀ (tl acc : JsonObj), keysDisjoint tl acc = true →
      JsonObj.hasKey k tl = false → keysDisjoint tl (acc.insert k v) = true := by
  intro tl
  induction tl using objInd with
  | h0 => intro acc _ _; rfl
  | h1 k2 v2 tl2 ih =>
    intro acc hd hk
    simp only [keysDisjoint, Bool.and_eq_true, Bool.not_eq_true'] at hd ⊢
    simp only [JsonObj.hasKey, Bool.or_eq_false_iff] at hk
    constructor
    · rw [hasKey_insert]
      simp [hd.1]
      intro he
      rw [he] at hk
      simp at hk
    · exact ih acc hd.2 hk.2

theorem norm_go : ∀ (ms acc : JsonObj), keysNodup ms = true →
    keysDisjoint ms acc = true → normMembersFrom acc ms = objAppend acc ms := by
  intro ms
  induction ms using objInd with
  | h0 => intro acc _ _; simp [normMembersFrom, objAppend_nil]
  | h1 k v tl ih =>
    intro acc hnd hdj
    simp only [keysNodup, Bool.and_eq_true, Bool.not_eq_true'] at hnd
    simp only [keysDisjoint, Bool.and_eq_true, Bool.not_eq_true'] at hdj
    show normMembersFrom (acc.insert k v) tl = _
    rw [ih (acc.insert k v) hnd.2 (keysDisjoint_insert k v tl acc hdj.2 hnd.1)]
    rw [insert_not_mem k v acc hdj.1]
    have : ∀ (a b : JsonObj) (k2 : List Char) (v2 : Json),
        objAppend (objAppend a (.cons k2 v2 .nil)) b =
          objAppend a (.cons k2 v2 b) := by
      intro a
      induction a using objInd with
      | h0 => intro b k2 v2; rfl
      | h1 ka va tla iha => intro b k2 v2; simp [objAppend, iha]
    rw [this]

theorem keysDisjoint_nil_r : ∀ (ms : JsonObj), keysDisjoint ms .nil = true := by
  intro ms
  induction ms using objInd with
  | h0 => rfl
  | h1 k v tl ih => simp [keysDisjoint, JsonObj.hasKey, ih]

theorem normMembers_id (ms : JsonObj) (h : keysNodup ms = true) :
    normMembers ms = ms := by
  unfold normMembers
  rw [norm_go ms .nil h (keysDisjoint_nil_r ms)]
  rfl

theorem keysNodup_insert (k : List Char) (v : Json) :
    ∀ (acc : JsonObj), keysNodup acc = true → keysNodup (acc.insert k v) = true := by
  intro acc
  induction acc using objInd with
  | h0 => intro _; simp [JsonObj.insert, keysNodup, JsonObj.hasKey]
  | h1 ka va tl ih =>
    intro h
    simp only [keysNodup, Bool.and_eq_true, Bool.not_eq_true'] at h
    by_cases hk : k = ka
    · subst hk
      simp [JsonObj.insert, keysNodup, h.1, h.2]
    · have hbe : (k == ka) = false := by simp [hk]
      simp only [JsonObj.insert, hbe, Bool.false_eq_true, if_false]
      simp only [keysNodup, Bool.and_eq_true, Bool.not_eq_true']
      refine ⟨?_, ih h.2⟩
      rw [hasKey_insert]
      simp [h.1]
      intro he
      exact hk he.symm

theorem wfO_insert (k : List Char) (v : Json) (hv : v.wf = true) :
    ∀ (acc : JsonObj), acc.wf = true → (acc.insert k v).wf = true := by
  intro acc
  induction acc using objInd with
  | h0 => intro _; simp [JsonObj.insert, JsonObj.wf, hv]
  | h1 ka va tl ih =>
    intro h
    simp only [JsonObj.wf, Bool.and_eq_true] at h
    by_cases hk : k = ka
    · subst hk
      simp [JsonObj.insert, JsonObj.wf, hv, h.2]
    · have hbe : (k == ka) = false := by simp [hk]
      simp [JsonObj.insert, hbe, JsonObj.wf, h.1, ih h.2]

theorem keysNodup_normFrom : ∀ (ms acc : JsonObj), keysNodup acc = true →
    keysNodup (normMembersFrom acc ms) = true := by
  intro ms
  induction ms using objInd with
  | h0 => intro acc h; exact h
  | h1 k v tl ih =>
    intro acc h
    exact ih (acc.insert k v) (keysNodup_insert k v acc h)

theorem wfO_normFrom : ∀ (ms acc : JsonObj), acc.wf = true → ms.wf = true →
    (normMembersFrom acc ms).wf = true := by
  intro ms
  induction ms using objInd with
  | h0 => intro acc h _; exact h
  | h1 k v tl ih =>
    intro acc ha hm
    simp only [JsonObj.wf, Bool.and_eq_true] at hm
    exact ih (acc.insert k v) (wfO_insert k v hm.1 acc ha) hm.2

theorem renderInt_head (n : Int) : ∃ c t, renderInt n = c :: t ∧
    isJsonWs c = false ∧ (c == 'n') = false ∧ (c == 't') = false ∧
    (c == 'f') = false ∧ (c == '"') = false ∧ (c == '[') = false ∧
    (c == '\x7b') = false := by
  unfold renderInt
  by_cases hn : n < 0
  · rw [if_pos hn]
    exact ⟨'-', _, rfl, by decide, by decide, by decide, by decide, by decide,
      by decide, by decide⟩
  · rw [if_neg hn]
    by_cases hz : n.natAbs = 0
    · rw [hz]
      exact ⟨'0', _, rfl, by decide, by decide, by decide, by decide, by decide,
        by decide, by decide⟩
    · obtain ⟨c, cs, heq, _, hcd⟩ := natDigits_head n.natAbs (by omega)
      obtain ⟨hws, h1, h2, h3, h4, h5, h6, _, _, _, _⟩ := digit_facts c hcd
      exact ⟨c, cs, heq, hws, h1, h2, h3, h4, h5, h6⟩

/-- `JsonArr.render` of a non-empty array starts with the first
element's rendering. -/
theorem renderArr_cons (x : Json) (tl : JsonArr) :
    ∃ T, JsonArr.render (.cons x tl) = Json.render x ++ T ∧
      sepOk T = true := by
  cases tl with
  | nil => exact ⟨[']'], rfl, by decide⟩
  | cons y tl2 => exact ⟨',' :: JsonArr.render (.cons y tl2), rfl, rfl⟩

theorem renderObj_cons (k : List Char) (v : Json) (tl : JsonObj) :
    ∃ T, JsonObj.render (.cons k v tl) =
      '"' :: escapeStr k ++ '"' :: ':' :: Json.render v ++ T ∧
      sepOk T = true := by
  cases tl with
  | nil => exact ⟨['\x7d'], rfl, by decide⟩
  | cons k2 v2 tl2 =>
    exact ⟨',' :: JsonObj.render (.cons k2 v2 tl2), by simp [JsonObj.render], rfl⟩

mutual
theorem parseValue_render : ∀ (v : Json) (f : Nat) (rest : List Char),
    v.wf = true → v.jsize ≤ f → sepOk rest = true →
    parseValue f (v.render ++ rest) = some (v, rest)
  | v, 0, rest => by intro _ hf _; exact absurd hf (by cases v <;> simp [Json.jsize])
  | .null, f + 1, rest => by
    intro _ _ _
    rw [parseValue.eq_def]
    rfl
  | .bool true, f + 1, rest => by
    intro _ _ _
    rw [parseValue.eq_def]
    rfl
  | .bool false, f + 1, rest => by
    intro _ _ _
    rw [parseValue.eq_def]
    rfl
  | .str s, f + 1, rest => by
    intro _ _ _
    have hra : Json.render (.str s) ++ rest = '"' :: (escapeStr s ++ '"' :: rest) := by
      show ('"' :: escapeStr s ++ ['"']) ++ rest = _
      simp
    rw [hra, parseValue.eq_def]
    simp [skipWs_cons _ _ (by decide : isJsonWs '"' = false),
      parseStr_escape s rest]
  | .num n, f + 1, rest => by
    intro _ _ hrest
    by_cases hn : n < 0
    · have hds := natDigits_head n.natAbs (by omega)
      obtain ⟨d, ds, hds, _, hdd⟩ := hds
      have hra : Json.render (.num n) ++ rest =
          '-' :: (natDigits n.natAbs ++ rest) := by
        show renderInt n ++ rest = _
        unfold renderInt
        rw [if_pos hn]
        rfl
      have hpn : parseNum ('-' :: (natDigits n.natAbs ++ rest)) = some (n, rest) := by
        rw [show '-' :: (natDigits n.natAbs ++ rest) =
          ('-' :: natDigits n.natAbs) ++ rest from rfl]
        rw [show '-' :: natDigits n.natAbs = renderInt n from by
          unfold renderInt
          rw [if_pos hn]]
        exact parseNum_render n rest hrest
      have hinf : isPref "Infinity".data (natDigits n.natAbs ++ rest) = false := by
        rw [hds]
        show (('I' == d) && _) = false
        rw [(digit_beq_false d hdd 'I' (by decide)).2]
        rfl
      rw [hra, parseValue.eq_def]
      simp [skipWs_cons _ _ (by decide : isJsonWs '-' = false), hinf, hpn]
    · obtain ⟨d, ds, hds, hdd⟩ : ∃ d ds, natDigits n.natAbs = d :: ds ∧
          isDigitCh d = true := by
        by_cases hz : n.natAbs = 0
        · rw [hz]
          exact ⟨'0', [], rfl, by decide⟩
        · obtain ⟨d, ds, hds, _, hdd⟩ := natDigits_head n.natAbs (by omega)
          exact ⟨d, ds, hds, hdd⟩
      obtain ⟨hws, h1, h2, h3, h4, h5, h6, _, _, _, h10⟩ := digit_facts d hdd
      have hN := (digit_beq_false d hdd 'N' (by decide)).1
      have hI := (digit_beq_false d hdd 'I' (by decide)).1
      have hra : Json.render (.num n) ++ rest = d :: (ds ++ rest) := by
        show renderInt n ++ rest = _
        unfold renderInt
        rw [if_neg hn, hds]
        rfl
      have hpn : parseNum (d :: (ds ++ rest)) = some (n, rest) := by
        rw [show d :: (ds ++ rest) = (d :: ds) ++ rest from rfl, ← hds]
        rw [show natDigits n.natAbs = renderInt n from by
          unfold renderInt
          rw [if_neg hn]]
        exact parseNum_render n rest hrest
      rw [hra, parseValue.eq_def]
      simp [skipWs_cons _ _ hws, h1, h2, h3, h4, h5, h6, h10, hN, hI, hpn]
  | .nan, f + 1, rest => by
    intro _ _ _
    rw [parseValue.eq_def]
    rfl
  | .inf false, f + 1, rest => by
    intro _ _ _
    rw [parseValue.eq_def]
    rfl
  | .inf true, f + 1, rest => by
    intro _ _ _
    rw [parseValue.eq_def]
    rfl
  | .arr .nil, f + 1, rest => by
    intro _ _ _
    have hra : Json.render (.arr .nil) ++ rest = '[' :: (']' :: rest) := rfl
    rw [hra, parseValue.eq_def]
    simp [skipWs_cons _ _ (by decide : isJsonWs '[' = false),
      skipWs_cons _ _ (by decide : isJsonWs ']' = false)]
  | .arr (.cons x tl), f + 1, rest => by
    intro hwf hf _
    obtain ⟨T, hT, hTsep⟩ := renderArr_cons x tl
    obtain ⟨c, t, hx, hws, hbr, _, _⟩ := renderHeadOk x
    have hE := parseElems_render x tl f rest hwf (by
      simp only [Json.jsize] at hf
      omega)
    have hra : Json.render (.arr (.cons x tl)) ++ rest =
        '[' :: (JsonArr.render (.cons x tl) ++ rest) := rfl
    have hhead : JsonArr.render (.cons x tl) ++ rest = c :: (t ++ (T ++ rest)) := by
      rw [hT, hx]
      simp
    rw [hra, parseValue.eq_def]
    rw [hhead] at hE
    simp [skipWs_cons _ _ (by decide : isJsonWs '[' = false), hhead,
      skipWs_cons _ _ hws, hbr, hE]
  | .obj .nil, f + 1, rest => by
    intro _ _ _
    have hra : Json.render (.obj .nil) ++ rest = '\x7b' :: ('\x7d' :: rest) := rfl
    rw [hra, parseValue.eq_def]
    simp [skipWs_cons _ _ (by decide : isJsonWs '\x7b' = false),
      skipWs_cons _ _ (by decide : isJsonWs '\x7d' = false)]
  | .obj (.cons k v tl), f + 1, rest => by
    intro hwf hf _
    have hwf2 : (JsonObj.cons k v tl).wf = true := by
      simp only [Json.wf, Bool.and_eq_true] at hwf
      exact hwf.2
    have hnd : keysNodup (.cons k v tl) = true := by
      simp only [Json.wf, Bool.and_eq_true] at hwf
      exact hwf.1
    have hM := parseMembers_render k v tl f rest hwf2 (by
      simp only [Json.jsize] at hf
      omega)
    have hra : Json.render (.obj (.cons k v tl)) ++ rest =
        '\x7b' :: (JsonObj.render (.cons k v tl) ++ rest) := rfl
    obtain ⟨T, hT, _⟩ := renderObj_cons k v tl
    have hhead : JsonObj.render (.cons k v tl) ++ rest =
        '"' :: (escapeStr k ++ '"' :: (':' :: (Json.render v ++ (T ++ rest)))) := by
      rw [hT]
      simp
    rw [hra, parseValue.eq_def]
    rw [hhead] at hM
    simp [skipWs_cons _ _ (by decide : isJsonWs '\x7b' = false), hhead,
      skipWs_cons _ _ (by decide : isJsonWs '"' = false), hM,
      normMembers_id _ hnd]

theorem parseElems_render : ∀ (x : Json) (tl : JsonArr) (f : Nat) (rest : List Char),
    (JsonArr.cons x tl).wf = true → (JsonArr.cons x tl).jsize ≤ f →
    parseElems f (JsonArr.render (.cons x tl) ++ rest) = some (.cons x tl, rest)
  | x, tl, 0, rest => by
    intro _ hf
    exact absurd hf (by simp [JsonArr.jsize])
  | x, .nil, f + 1, rest => by
    intro hwf hf
    simp only [JsonArr.wf, Bool.and_eq_true] at hwf
    have hV := parseValue_render x f (']' :: rest) hwf.1 (by
      simp only [JsonArr.jsize] at hf
      omega) rfl
    have hra : JsonArr.render (.cons x .nil) ++ rest =
        Json.render x ++ (']' :: rest) := by
      show (Json.render x ++ [']']) ++ rest = _
      simp
    rw [hra, parseElems.eq_def]
    simp [hV, skipWs_cons _ _ (by decide : isJsonWs ']' = false)]
  | x, .cons y tl2, f + 1, rest => by
    intro hwf hf
    simp only [JsonArr.wf, Bool.and_eq_true] at hwf
    have hV := parseValue_render x f (',' :: (JsonArr.render (.cons y tl2) ++ rest))
      hwf.1 (by
        simp only [JsonArr.jsize] at hf
        omega) rfl
    have hE := parseElems_render y tl2 f rest (by
      simp [JsonArr.wf, hwf.2]) (by
      simp only [JsonArr.jsize] at hf ⊢
      omega)
    have hra : JsonArr.render (.cons x (.cons y tl2)) ++ rest =
        Json.render x ++ (',' :: (JsonArr.render (.cons y tl2) ++ rest)) := by
      show (Json.render x ++ ',' :: JsonArr.render (.cons y tl2)) ++ rest = _
      simp
    rw [hra, parseElems.eq_def]
    simp [hV, skipWs_cons _ _ (by decide : isJsonWs ',' = false), hE]

theorem parseMembers_render : ∀ (k : List Char) (v : Json) (tl : JsonObj) (f : Nat) (rest : List Char),
    (JsonObj.cons k v tl).wf = true → (JsonObj.cons k v tl).jsize ≤ f →
    parseMembers f (JsonObj.render (.cons k v tl) ++ rest) = some (.cons k v tl, rest)
  | k, v, tl, 0, rest => by
    intro _ hf
    exact absurd hf (by simp [JsonObj.jsize])
  | k, v, .nil, f + 1, rest => by
    intro hwf hf
    simp only [JsonObj.wf, Bool.and_eq_true] at hwf
    have hV := parseValue_render v f ('\x7d' :: rest) hwf.1 (by
      simp only [JsonObj.jsize] at hf
      omega) rfl
    have hra : JsonObj.render (.cons k v .nil) ++ rest =
        '"' :: (escapeStr k ++ '"' :: (':' :: (Json.render v ++ ('\x7d' :: rest)))) := by
      show ('"' :: escapeStr k ++ '"' :: ':' :: Json.render v ++ ['\x7d']) ++ rest = _
      simp
    rw [hra, parseMembers.eq_def]
    simp [skipWs_cons _ _ (by decide : isJsonWs '"' = false),
      parseStr_escape k, skipWs_cons _ _ (by decide : isJsonWs ':' = false),
      hV, skipWs_cons _ _ (by decide : isJsonWs '\x7d' = false)]
  | k, v, .cons k2 v2 tl2, f + 1, rest => by
    intro hwf hf
    simp only [JsonObj.wf, Bool.and_eq_true] at hwf
    have hV := parseValue_render v f
      (',' :: (JsonObj.render (.cons k2 v2 tl2) ++ rest)) hwf.1 (by
        simp only [JsonObj.jsize] at hf
        omega) rfl
    have hM := parseMembers_render k2 v2 tl2 f rest (by
      simp [JsonObj.wf, hwf.2]) (by
      simp only [JsonObj.jsize] at hf ⊢
      omega)
    have hra : JsonObj.render (.cons k v (.cons k2 v2 tl2)) ++ rest =
        '"' :: (escapeStr k ++ '"' :: (':' :: (Json.render v ++
          (',' :: (JsonObj.render (.cons k2 v2 tl2) ++ rest))))) := by
      show ('"' :: escapeStr k ++ '"' :: ':' :: Json.render v ++
        ',' :: JsonObj.render (.cons k2 v2 tl2)) ++ rest = _
      simp
    rw [hra, parseMembers.eq_def]
    simp [skipWs_cons _ _ (by decide : isJsonWs '"' = false),
      parseStr_escape k, skipWs_cons _ _ (by decide : isJsonWs ':' = false),
      hV, skipWs_cons _ _ (by decide : isJsonWs ',' = false), hM]
end

theorem natDigits_ne_nil (n : Nat) : natDigits n ≠ [] := by
  rw [natDigits_unfold]
  split <;> simp

theorem renderInt_ne_nil (n : Int) : renderInt n ≠ [] := by
  unfold renderInt
  split
  · simp
  · exact natDigits_ne_nil n.natAbs

mutual
theorem jsize_le_renderLen : ∀ (v : Json), v.jsize ≤ v.render.length
  | .null => by simp [Json.jsize, Json.render]
  | .bool true => by simp [Json.jsize, Json.render]
  | .bool false => by simp [Json.jsize, Json.render]
  | .num n => by
    have := renderInt_ne_nil n
    simp only [Json.jsize, Json.render]
    cases h : renderInt n with
    | nil => exact absurd h this
    | cons c t => simp
  | .nan => by simp [Json.jsize, Json.render]
  | .inf true => by simp [Json.jsize, Json.render]
  | .inf false => by simp [Json.jsize, Json.render]
  | .str s => by simp [Json.jsize, Json.render]
  | .arr xs => by
    have := jsizeA_le_renderLen xs
    simp only [Json.jsize, Json.render, List.length_cons]
    omega
  | .obj ms => by
    have := jsizeO_le_renderLen ms
    simp only [Json.jsize, Json.render, List.length_cons]
    omega
theorem jsizeA_le_renderLen : ∀ (xs : JsonArr), xs.jsize ≤ xs.render.length
  | .nil => by simp [JsonArr.jsize, JsonArr.render]
  | .cons x .nil => by
    have := jsize_le_renderLen x
    simp only [JsonArr.jsize, JsonArr.render, List.length_append,
      List.length_cons, List.length_nil]
    omega
  | .cons x (.cons y tl) => by
    have h1 := jsize_le_renderLen x
    have h2 := jsizeA_le_renderLen (.cons y tl)
    simp only [JsonArr.jsize] at h2 ⊢
    simp only [JsonArr.render, List.length_append, List.length_cons]
    omega
theorem jsizeO_le_renderLen : ∀ (ms : JsonObj), ms.jsize ≤ ms.render.length
  | .nil => by simp [JsonObj.jsize, JsonObj.render]
  | .cons k v .nil => by
    have := jsize_le_renderLen v
    simp only [JsonObj.jsize, JsonObj.render, List.length_append,
      List.length_cons, List.length_nil]
    omega
  | .cons k v (.cons k2 v2 tl) => by
    have h1 := jsize_le_renderLen v
    have h2 := jsizeO_le_renderLen (.cons k2 v2 tl)
    simp only [JsonObj.jsize] at h2 ⊢
    simp only [JsonObj.render, List.length_append, List.length_cons]
    omega
end

theorem keysNodup_norm (ms : JsonObj) : keysNodup (normMembers ms) = true :=
  keysNodup_normFrom ms .nil rfl


set_option maxHeartbeats 2000000 in
theorem parse_wf : ∀ f,
    (∀ cs v r, parseValue f cs = some (v, r) → v.wf = true) ∧
    (∀ cs xs r, parseElems f cs = some (xs, r) → xs.wf = true) ∧
    (∀ cs ms r, parseMembers f cs = some (ms, r) → ms.wf = true) := by
  intro f
  induction f with
  | zero =>
    refine ⟨?_, ?_, ?_⟩
    · intro cs a r h
      rw [parseValue.eq_def] at h
      simp at h
    · intro cs a r h
      rw [parseElems.eq_def] at h
      simp at h
    · intro cs a r h
      rw [parseMembers.eq_def] at h
      simp at h
  | succ f ih =>
    obtain ⟨ihv, ihe, ihm⟩ := ih
    refine ⟨?_, ?_, ?_⟩
    · intro cs v r h
      rw [parseValue.eq_def] at h
      repeat' split at h
      all_goals simp_all
      all_goals (first
        | (rw [← h.1]; rfl)
        | (rw [← h.1]; simp only [Json.wf]; exact ihe _ _ _ (by assumption))
        | (rw [← h.1]
           simp only [Json.wf, Bool.and_eq_true]
           exact ⟨keysNodup_norm _, wfO_normFrom _ _ rfl (ihm _ _ _ (by assumption))⟩))
    · intro cs xs r h
      rw [parseElems.eq_def] at h
      repeat' split at h
      all_goals simp_all
      all_goals (first
        | (rw [← h.1]
           simp only [JsonArr.wf, Bool.and_eq_true]
           exact ⟨ihv _ _ _ (by assumption), ihe _ _ _ (by assumption)⟩)
        | (rw [← h.1]
           simp only [JsonArr.wf, Bool.and_eq_true]
           exact ⟨ihv _ _ _ (by assumption), trivial⟩))
    · intro cs ms r h
      rw [parseMembers.eq_def] at h
      repeat' split at h
      all_goals simp_all
      all_goals (first
        | (rw [← h.1]
           simp only [JsonObj.wf, Bool.and_eq_true]
           exact ⟨ihv _ _ _ (by assumption), ihm _ _ _ (by assumption)⟩)
        | (rw [← h.1]
           simp only [JsonObj.wf, Bool.and_eq_true]
           exact ⟨ihv _ _ _ (by assumption), trivial⟩))

theorem jsonParse_wf (cs : List Char) (v : Json) (h : jsonParse cs = some v) :
    v.wf = true := by
  unfold jsonParse at h
  cases hp : parseValue (cs.length + 1) cs with
  | none => rw [hp] at h; simp at h
  | some p =>
    rw [hp] at h
    obtain ⟨v2, r⟩ := p
    by_cases hr : skipWs r = []
    · simp only [hr, if_pos rfl] at h
      obtain rfl : v2 = v := by simpa using h
      exact (parse_wf _).1 cs _ r hp
    · simp [hr] at h

theorem firstParse_wf : ∀ (l : List (List Char)) (v : Json),
    firstParse l = some v → v.wf = true := by
  intro l
  induction l with
  | nil => intro v h; simp [firstParse] at h
  | cons c rest ih =>
    intro v h
    simp only [firstParse] at h
    cases hc : jsonParse c with
    | some v2 =>
      simp only [hc] at h
      obtain rfl : v2 = v := by simpa using h
      exact jsonParse_wf c _ hc
    | none =>
      simp only [hc] at h
      exact ih v h

theorem decode_wf (x : List Char) (v : Json)
    (h : parse_json_from_text x = some v) : v.wf = true := by
  unfold parse_json_from_text at h
  cases h1 : jsonParse x with
  | some v2 =>
    simp only [h1] at h
    obtain rfl : v2 = v := by simpa using h
    exact jsonParse_wf x _ h1
  | none =>
    simp only [h1] at h
    cases h2 : findFence x with
    | some cand =>
      simp only [h2] at h
      cases h3 : jsonParse cand with
      | some v3 =>
        simp only [h3] at h
        obtain rfl : v3 = v := by simpa using h
        exact jsonParse_wf cand _ h3
      | none =>
        simp only [h3] at h
        exact firstParse_wf _ v h
    | none =>
      simp only [h2] at h
      exact firstParse_wf _ v h

theorem jsonParse_render (v : Json) (hwf : v.wf = true) :
    jsonParse v.render = some v := by
  unfold jsonParse
  have h := parseValue_render v (v.render.length + 1) [] hwf
    (le_trans (jsize_le_renderLen v) (by omega)) rfl
  rw [List.append_nil] at h
  rw [h]
  rfl

/-- Whenever `parse_json_from_text` yields a value, decoding that
value's JSON serialization yields the structurally identical value (the
direct-parse tier accepts the whole serialized document). -/
theorem decode_render_roundtrip (x : List Char) (v : Json)
    (h : parse_json_from_text x = some v) :
    parse_json_from_text (Json.render v) = some v := by
  have hwf := decode_wf x v h
  unfold parse_json_from_text
  rw [jsonParse_render v hwf]

/-- A key that `find?` resolves is a member. -/
theorem hasKey_of_find? (k : List Char) : ∀ (ms : JsonObj) (v : Json),
    JsonObj.find? k ms = some v → JsonObj.hasKey k ms = true := by
  intro ms
  induction ms using objInd with
  | h0 => intro v h; simp [JsonObj.find?] at h
  | h1 k2 v2 tl ih =>
    intro v h
    by_cases hk : (k == k2) = true
    · simp [JsonObj.hasKey, hk]
    · simp only [JsonObj.find?, hk, if_false] at h
      simp [JsonObj.hasKey, hk, ih v h]

mutual
/-- Python `==` is reflexive on `NaN`-free well-formed values. -/
theorem pyEqJson_refl : ∀ (v : Json), Json.nanFree v = true →
    Json.wf v = true → pyEqJson v v = true
  | .null, _, _ => by simp [pyEqJson]
  | .bool b, _, _ => by simp [pyEqJson]
  | .num n, _, _ => by simp [pyEqJson]
  | .nan, hn, _ => by simp [Json.nanFree] at hn
  | .inf s, _, _ => by simp [pyEqJson]
  | .str s, _, _ => by simp [pyEqJson]
  | .arr xs, hn, hw => by
    simp only [Json.nanFree] at hn
    simp only [Json.wf] at hw
    simp only [pyEqJson]
    exact pyEqArr_refl xs hn hw
  | .obj ms, hn, hw => by
    simp only [Json.nanFree] at hn
    simp only [Json.wf, Bool.and_eq_true] at hw
    simp only [pyEqJson, Bool.and_eq_true, beq_self_eq_true, true_and]
    exact pyEqObjSub_super ms ms hn hw.2 hw.1 (fun _ _ h => h)
theorem pyEqArr_refl : ∀ (xs : JsonArr), JsonArr.nanFree xs = true →
    JsonArr.wf xs = true → pyEqArr xs xs = true
  | .nil, _, _ => by simp [pyEqArr]
  | .cons x tl, hn, hw => by
    simp only [JsonArr.nanFree, Bool.and_eq_true] at hn
    simp only [JsonArr.wf, Bool.and_eq_true] at hw
    simp only [pyEqArr, Bool.and_eq_true]
    exact ⟨pyEqJson_refl x hn.1 hw.1, pyEqArr_refl tl hn.2 hw.2⟩
/-- Comparing an object member-wise against any object that resolves
every one of its keys to the same value succeeds. -/
theorem pyEqObjSub_super : ∀ (a b : JsonObj), JsonObj.nanFree a = true →
    JsonObj.wf a = true → keysNodup a = true →
    (∀ k v, JsonObj.find? k a = some v → JsonObj.find? k b = some v) →
    pyEqObjSub a b = true
  | .nil, _, _, _, _, _ => by simp [pyEqObjSub]
  | .cons k v tl, b, hn, hw, hnd, hb => by
    simp only [JsonObj.nanFree, Bool.and_eq_true] at hn
    simp only [JsonObj.wf, Bool.and_eq_true] at hw
    simp only [keysNodup, Bool.and_eq_true, Bool.not_eq_true'] at hnd
    have hfb : JsonObj.find? k b = some v := by
      apply hb
      simp [JsonObj.find?]
    simp only [pyEqObjSub, hfb, Bool.and_eq_true]
    refine ⟨pyEqJson_refl v hn.1 hw.1, ?_⟩
    apply pyEqObjSub_super tl b hn.2 hw.2 hnd.2
    intro k2 v2 h2
    apply hb
    simp only [JsonObj.find?]
    rw [if_neg]
    · exact h2
    · intro hkk
      have hkey := hasKey_of_find? k2 tl v2 h2
      rw [eq_of_beq hkk] at hkey
      rw [hkey] at hnd
      exact absurd hnd.1 (by simp)
end

/-- Counterexample for claim C9: at `x = "NaN"` the decoder is defined
(`json.loads` accepts the `NaN` constant), the serialization of the
decoded value is again `"NaN"`, and re-decoding returns the same
constant — but Python's `==` on the two results is `False`, because
`float.__eq__` makes `nan` unequal to itself. The claimed equality
`decode(stringify(decode(x))) == decode(x)` therefore fails. -/
theorem c9_counterexample :
    parse_json_from_text "NaN".data = some Json.nan ∧
    Json.render Json.nan = "NaN".data ∧
    parse_json_from_text (Json.render Json.nan) = some Json.nan ∧
    pyEqJson Json.nan Json.nan = false :=
  ⟨rfl, rfl, rfl, rfl⟩

/-- Claim C9 (amended): the decoder is idempotent on its own output for
every input whose decoded value is free of the `NaN` constant — decoding
the JSON serialization of `decode(x)` yields the structurally identical
value, and that value compares equal to itself under Python `==`. At
`x = "NaN"` the equality fails (`nan != nan`). -/
theorem c9_decode_idempotent_nan_free (x : List Char) (v : Json)
    (h : parse_json_from_text x = some v) (hn : Json.nanFree v = true) :
    parse_json_from_text (Json.render v) = some v ∧ pyEqJson v v = true :=
  ⟨decode_render_roundtrip x v h, pyEqJson_refl v hn (decode_wf x v h)⟩

/-- Witness for claim C9: decode a prose-wrapped `NaN`-free object, then
decode its serialization and compare. -/
theorem c9_decode_idempotent_nan_free_witness :
    parse_json_from_text "reply: \x7b\"a\": [1, true], \"b\": \"x\"\x7d end".data =
      some (.obj (.cons "a".data (.arr (.cons (.num 1) (.cons (.bool true) .nil)))
        (.cons "b".data (.str "x".data) .nil))) ∧
    Json.nanFree (.obj (.cons "a".data
        (.arr (.cons (.num 1) (.cons (.bool true) .nil)))
        (.cons "b".data (.str "x".data) .nil))) = true ∧
    (parse_json_from_text (Json.render (.obj (.cons "a".data
        (.arr (.cons (.num 1) (.cons (.bool true) .nil)))
        (.cons "b".data (.str "x".data) .nil)))) =
      some (.obj (.cons "a".data (.arr (.cons (.num 1) (.cons (.bool true) .nil)))
        (.cons "b".data (.str "x".data) .nil))) ∧
    pyEqJson (.obj (.cons "a".data (.arr (.cons (.num 1) (.cons (.bool true) .nil)))
        (.cons "b".data (.str "x".data) .nil)))
      (.obj (.cons "a".data (.arr (.cons (.num 1) (.cons (.bool true) .nil)))
        (.cons "b".data (.str "x".data) .nil))) = true) := by
  refine ⟨rfl, rfl, ?_⟩
  exact c9_decode_idempotent_nan_free
    "reply: \x7b\"a\": [1, true], \"b\": \"x\"\x7d end".data
    (.obj (.cons "a".data (.arr (.cons (.num 1) (.cons (.bool true) .nil)))
      (.cons "b".data (.str "x".data) .nil))) (by rfl) (by rfl)
